import Mathlib

/-!
# Verification of the CSR / structured-grid PDE core

This development gives a shallow embedding of the core of the
`Numerical-Solution-of-PDEs` repository and proves the specification
claims about it.  `double` values are modelled over `ℚ` (exact real
arithmetic; IEEE rounding is not modelled), C `int` values over `Int`
(or `Nat` where the C value is a size/loop counter that stays
non-negative), and C arrays over `List`s with the C convention that an
in-bounds read is `List.getD`.  Calls into `libm` (`sin`, `cos` in the
Neumann assembler) are modelled as explicit function parameters.
-/

namespace PdeCore

open scoped List

/-- In-bounds-by-convention array read at an `Int` index, as in
`x[col_ind[j]]`; C indices are `int`s.  A negative index (undefined
behaviour in C) reads the default `0`. -/
def getI (l : List ℚ) (k : Int) : ℚ :=
  if 0 ≤ k then l.getD k.toNat 0 else 0

/-! ## The CSR data structure (`include/csr.h`, `src/sparse/csr.c`) -/

/-- `SparseCSR` from `include/csr.h`.  `col_ind` entries are C `int`s
(the grid assemblers can store a `-1` coming from `id_map`), hence
`List Int`. -/
structure SparseCSR where
  rows : Nat
  cols : Nat
  nnz : Nat
  row_ptr : List Nat
  col_ind : List Int
  values : List ℚ
  deriving Repr, DecidableEq

namespace SparseCSR

/-- `row_ptr[i]` as read by the C code. -/
def rp (A : SparseCSR) (i : Nat) : Nat := A.row_ptr.getD i 0

/-- The `(col, value)` pairs of row `i`, i.e. positions
`[row_ptr[i], row_ptr[i+1])` of the `col_ind`/`values` arrays. -/
def rowSeg (A : SparseCSR) (i : Nat) : List (Int × ℚ) :=
  ((A.col_ind.zip A.values).drop (A.rp i)).take (A.rp (i + 1) - A.rp i)

/-- All stored entries of the matrix as `(row, col, value)` triples,
row by row. -/
def entriesList (A : SparseCSR) : List (Nat × Int × ℚ) :=
  (List.range A.rows).flatMap (fun i => (A.rowSeg i).map (fun e => (i, e.1, e.2)))

end SparseCSR

/-- Build a CSR matrix from an explicit list of rows, each row a list of
`(col, value)` pairs.  This models the assembly pattern used throughout
the repository: a single pass appending the entries of row `0`, then row
`1`, … while recording the running entry count in `row_ptr` (the running
`idx` variable), and finally setting `nnz` to the total count. -/
def buildCSR (rows cols : Nat) (L : List (List (Int × ℚ))) : SparseCSR :=
  { rows := rows
    cols := cols
    nnz := (L.map List.length).sum
    row_ptr := (L.map List.length).scanl (· + ·) 0
    col_ind := L.flatten.map Prod.fst
    values := L.flatten.map Prod.snd }

/-! ### Generic list lemmas used to read rows back out of a built CSR -/

theorem zip_map_fst_snd {α β : Type} : ∀ (l : List (α × β)),
    (l.map Prod.fst).zip (l.map Prod.snd) = l
  | [] => rfl
  | e :: t => by simp [zip_map_fst_snd t]

theorem scanl_add_getD : ∀ (ns : List Nat) (a i : Nat), i ≤ ns.length →
    (ns.scanl (· + ·) a).getD i 0 = a + (ns.take i).sum
  | [], a, i, h => by
      have : i = 0 := Nat.le_zero.mp (by simpa using h)
      subst this
      simp [List.scanl]
  | n :: t, a, 0, _ => by simp [List.scanl]
  | n :: t, a, i + 1, h => by
      have ih := scanl_add_getD t (a + n) i (by simpa using h)
      simpa [List.scanl, Nat.add_assoc] using ih

theorem drop_length_add {α : Type} : ∀ (l₁ l₂ : List α) (n : Nat),
    (l₁ ++ l₂).drop (l₁.length + n) = l₂.drop n
  | [], l₂, n => by simp
  | a :: t, l₂, n => by
      simp only [List.cons_append, List.length_cons, Nat.succ_add, List.drop_succ_cons]
      exact drop_length_add t l₂ n

theorem drop_flatten_sum {α : Type} : ∀ (L : List (List α)) (i : Nat),
    L.flatten.drop ((L.map List.length).take i).sum = (L.drop i).flatten
  | L, 0 => by simp
  | [], i + 1 => by simp
  | h :: t, i + 1 => by
      simp only [List.map_cons, List.take_succ_cons, List.sum_cons, List.flatten_cons,
        List.drop_succ_cons]
      rw [drop_length_add]
      exact drop_flatten_sum t i

/-- Reading row `i` back out of `buildCSR` yields exactly the `i`-th row
list that was put in. -/
theorem buildCSR_rowSeg (rows cols : Nat) (L : List (List (Int × ℚ))) (i : Nat)
    (hi : i < L.length) :
    (buildCSR rows cols L).rowSeg i = L.getD i [] := by
  have hzip : ((buildCSR rows cols L).col_ind.zip (buildCSR rows cols L).values) = L.flatten := by
    simpa [buildCSR] using zip_map_fst_snd L.flatten
  have hlen : (L.map List.length).length = L.length := by simp
  have hrp : ∀ j, j ≤ L.length →
      (buildCSR rows cols L).rp j = ((L.map List.length).take j).sum := by
    intro j hj
    simpa [buildCSR, SparseCSR.rp] using scanl_add_getD (L.map List.length) 0 j (by simpa [hlen])
  have htake : ((L.map List.length).take (i + 1)).sum
      = ((L.map List.length).take i).sum + (L.getD i []).length := by
    rw [List.sum_take_succ _ _ (by simpa [hlen]), List.getElem_map,
      List.getD_eq_getElem _ _ hi]
  unfold SparseCSR.rowSeg
  rw [hzip, hrp i (Nat.le_of_lt hi), hrp (i + 1) hi, htake, Nat.add_sub_cancel_left,
    drop_flatten_sum]
  have hdrop : L.drop i = L.getD i [] :: L.drop (i + 1) := by
    rw [List.getD_eq_getElem _ _ hi]
    exact List.drop_eq_getElem_cons hi
  rw [hdrop]
  simp [List.take_left']

theorem buildCSR_rows (rows cols : Nat) (L : List (List (Int × ℚ))) :
    (buildCSR rows cols L).rows = rows := rfl

/-- `entriesList` of a built CSR is the flattening of its row lists,
tagged with their row index. -/
theorem buildCSR_entriesList (rows cols : Nat) (L : List (List (Int × ℚ)))
    (h : L.length = rows) :
    (buildCSR rows cols L).entriesList
      = (List.range rows).flatMap
          (fun i => (L.getD i []).map (fun e => (i, e.1, e.2))) := by
  unfold SparseCSR.entriesList
  apply List.flatMap_congr
  intro i hi
  rw [buildCSR_rowSeg _ _ _ i (by rw [h]; exact List.mem_range.mp hi)]

/-! ## Vector operations (`src/vec.c`) -/

/-- `vec_dot` from `src/vec.c`: accumulate `a[i]*b[i]` for `i < n`
starting from `0.0`. -/
def vec_dot (a b : List ℚ) (n : Nat) : ℚ :=
  (List.range n).foldl (fun acc i => acc + a.getD i 0 * b.getD i 0) 0

/-! ## CSR operations (`src/sparse/csr.c`) -/

/-- The inner loop of `spmv_csr` for row `i`: starting from `y[i] = 0.0`,
accumulate `values[j] * x[col_ind[j]]` over `j ∈ [row_ptr[i], row_ptr[i+1])`. -/
def spmv_row (A : SparseCSR) (x : List ℚ) (i : Nat) : ℚ :=
  (List.range' (A.rp i) (A.rp (i + 1) - A.rp i)).foldl
    (fun acc j => acc + A.values.getD j 0 * getI x (A.col_ind.getD j 0)) 0

/-- `spmv_csr`: `y = A * x`, one `spmv_row` per row. -/
def spmv_csr (A : SparseCSR) (x : List ℚ) : List ℚ :=
  (List.range A.rows).map (spmv_row A x)

/-- The `n × n` identity matrix laid out in CSR form: row `i` holds the
single entry `(i, 1.0)` (the fixture shape used by the spec's identity
property). -/
def identityCSR (n : Nat) : SparseCSR :=
  { rows := n
    cols := n
    nnz := n
    row_ptr := List.range (n + 1)
    col_ind := (List.range n).map Int.ofNat
    values := List.replicate n 1 }

/-- The value left in `D`'s diagonal slot for row `i` by
`get_D_L_U_csr`: the slot is pre-zeroed (`0.0`) and overwritten by
`values[j]` each time `col_ind[j] == i` is met while walking row `i`,
so the last stored diagonal entry wins. -/
def diagValue (A : SparseCSR) (i : Nat) : ℚ :=
  (A.rowSeg i).foldl (fun acc e => if e.1 = (i : Int) then e.2 else acc) 0

/-- `get_D_L_U_csr` from `src/sparse/csr.c`.  The C code walks `A` row by
row, appending each entry to `L` when `col < i`, to `U` when `col > i`,
and writing it into `D`'s per-row diagonal slot when `col == i`, while
recording running counts in the three `row_ptr` arrays; appending row
after row with a running index is `buildCSR`, and the order-preserving
routing of one row is `List.filter`.  The first counting pass makes the
allocations exact, so `nnz` equals the total routed count. -/
def get_D_L_U_csr (A : SparseCSR) : SparseCSR × SparseCSR × SparseCSR :=
  (buildCSR A.rows A.cols
      ((List.range A.rows).map fun (i : Nat) => [(((i : Nat) : Int), diagValue A i)]),
   buildCSR A.rows A.cols
      ((List.range A.rows).map fun i => (A.rowSeg i).filter (fun e => e.1 < (i : Int))),
   buildCSR A.rows A.cols
      ((List.range A.rows).map fun i => (A.rowSeg i).filter (fun e => (i : Int) < e.1)))

/-! ## Iterative solvers (`src/sparse/csr.c`) -/

/-- Decides `Real.sqrt s < t` (the C code's `sqrt(norm) < tol`) without
leaving `ℚ`: for the sums of squares the solvers feed in, `s ≥ 0`, and
then `√s < t ↔ 0 ≤ t ∧ s < t·t`.  (`sqrtLt_iff_sqrt_lt` below proves
this equivalence.) -/
def sqrtLt (s t : ℚ) : Bool :=
  decide (0 ≤ t) && decide (s < t * t)

/-- `sqrtLt` agrees with the C comparison `sqrt(s) < t` whenever `s ≥ 0`. -/
theorem sqrtLt_iff_sqrt_lt (s t : ℚ) (hs : 0 ≤ s) :
    sqrtLt s t = true ↔ Real.sqrt (s : ℝ) < (t : ℝ) := by
  unfold sqrtLt
  rcases le_or_lt (t : ℝ) 0 with ht | ht
  · constructor
    · intro h
      simp only [Bool.and_eq_true, decide_eq_true_eq] at h
      have ht0 : (t : ℝ) = 0 := le_antisymm ht (by exact_mod_cast h.1)
      have : (s : ℝ) < 0 := by
        have := h.2
        have h2 : (s : ℝ) < (t : ℝ) * (t : ℝ) := by exact_mod_cast this
        simpa [ht0] using h2
      exact absurd this (not_lt.mpr (by exact_mod_cast hs))
    · intro h
      exact absurd h (not_lt.mpr (le_trans ht (Real.sqrt_nonneg _)))
  · have hsq : Real.sqrt (s : ℝ) < (t : ℝ) ↔ (s : ℝ) < (t : ℝ) ^ 2 :=
      Real.sqrt_lt' ht
    constructor
    · intro h
      simp only [Bool.and_eq_true, decide_eq_true_eq] at h
      exact hsq.mpr (by rw [sq]; exact_mod_cast h.2)
    · intro h
      have := hsq.mp h
      rw [sq] at this
      simp only [Bool.and_eq_true, decide_eq_true_eq]
      exact ⟨by exact_mod_cast le_of_lt ht, by exact_mod_cast this⟩

/-- The row loop body shared by `Jacobi_csr` and `GaussSeidel_csr`:
starting from `sum = 0.0, diag = 0.0`, walk `j` over
`[row_ptr[i], row_ptr[i+1])`; a diagonal hit (`col_ind[j] == i`)
overwrites `diag`, every other entry adds `values[j]*x[col_ind[j]]`
to `sum`. -/
def jacobiRowAcc (A : SparseCSR) (x : List ℚ) (i : Nat) : ℚ × ℚ :=
  (List.range' (A.rp i) (A.rp (i + 1) - A.rp i)).foldl
    (fun sd j =>
      if A.col_ind.getD j 0 = (i : Int) then (sd.1, A.values.getD j 0)
      else (sd.1 + A.values.getD j 0 * getI x (A.col_ind.getD j 0), sd.2))
    (0, 0)

/-- One Jacobi iteration over all rows:
`x_new[i] = (b[i] - sum) / diag`, reading only the previous `x`. -/
def jacobiSweep (A : SparseCSR) (b x : List ℚ) : List ℚ :=
  (List.range A.rows).map (fun i =>
    let sd := jacobiRowAcc A x i
    (b.getD i 0 - sd.1) / sd.2)

/-- The Jacobi convergence accumulator:
`norm += (x_new[i] - x[i]) * (x_new[i] - x[i])` over `i < n`. -/
def normSqDiff (xn x : List ℚ) (n : Nat) : ℚ :=
  (List.range n).foldl
    (fun acc i => acc + (xn.getD i 0 - x.getD i 0) * (xn.getD i 0 - x.getD i 0)) 0

/-- The iteration loop of `Jacobi_csr`: compute `x_new`, copy it into
`x`, and break when `sqrt(norm) < tol`; the remaining-iterations counter
replaces the C upward counter. -/
def Jacobi_loop (A : SparseCSR) (b : List ℚ) : List ℚ → Nat → ℚ → List ℚ
  | x, 0, _ => x
  | x, rest + 1, tol =>
    let x_new := jacobiSweep A b x
    if sqrtLt (normSqDiff x_new x A.rows) tol then x_new
    else Jacobi_loop A b x_new rest tol

/-- `Jacobi_csr` from `src/sparse/csr.c` (the solution vector it leaves
in `x`). -/
def Jacobi_csr (A : SparseCSR) (b x : List ℚ) (max_iter : Nat) (tol : ℚ) : List ℚ :=
  Jacobi_loop A b x max_iter tol

/-- One Gauss-Seidel sweep: rows in increasing order, each row's new
value written into `x` immediately (`x.set i xi`), accumulating the
squared per-row updates. -/
def gsSweep (A : SparseCSR) (b : List ℚ) (x : List ℚ) : List ℚ × ℚ :=
  (List.range A.rows).foldl
    (fun s i =>
      let sd := jacobiRowAcc A s.1 i
      let xi := (b.getD i 0 - sd.1) / sd.2
      let x_old := s.1.getD i 0
      (s.1.set i xi, s.2 + (xi - x_old) * (xi - x_old)))
    (x, 0)

/-- The iteration loop of `GaussSeidel_csr`. -/
def GaussSeidel_loop (A : SparseCSR) (b : List ℚ) : List ℚ → Nat → ℚ → List ℚ
  | x, 0, _ => x
  | x, rest + 1, tol =>
    let s := gsSweep A b x
    if sqrtLt s.2 tol then s.1 else GaussSeidel_loop A b s.1 rest tol

/-- `GaussSeidel_csr` from `src/sparse/csr.c`. -/
def GaussSeidel_csr (A : SparseCSR) (b x : List ℚ) (max_iter : Nat) (tol : ℚ) : List ℚ :=
  GaussSeidel_loop A b x max_iter tol

/-- The variables CG carries between iterations. -/
structure CGState where
  x : List ℚ
  r : List ℚ
  p : List ℚ
  rsold : ℚ
  deriving Repr

/-- The iteration loop of `CG_csr`: `Ap = A·p`, `α = rsold/(pᵀAp)`,
update `x` and `r`, break when `sqrt(rsnew) < tol` (before the `p`
update), otherwise `p = r + (rsnew/rsold)·p` and continue. -/
def CG_loop (A : SparseCSR) : CGState → Nat → ℚ → List ℚ
  | s, 0, _ => s.x
  | s, rest + 1, tol =>
    let Ap := spmv_csr A s.p
    let alpha := s.rsold / vec_dot s.p Ap A.rows
    let x' := (List.range A.rows).map (fun i => s.x.getD i 0 + alpha * s.p.getD i 0)
    let r' := (List.range A.rows).map (fun i => s.r.getD i 0 - alpha * Ap.getD i 0)
    let rsnew := vec_dot r' r' A.rows
    if sqrtLt rsnew tol then x'
    else
      CG_loop A
        ⟨x', r',
         (List.range A.rows).map (fun i => r'.getD i 0 + rsnew / s.rsold * s.p.getD i 0),
         rsnew⟩ rest tol

/-- `CG_csr` from `src/sparse/csr.c`: `r = b - A·x`, `p = r`,
`rsold = rᵀr`, then the loop. -/
def CG_csr (A : SparseCSR) (b x : List ℚ) (max_iter : Nat) (tol : ℚ) : List ℚ :=
  let r0 := (List.range A.rows).map (fun i => b.getD i 0 - (spmv_csr A x).getD i 0)
  CG_loop A ⟨x, r0, r0, vec_dot r0 r0 A.rows⟩ max_iter tol

/-! ## The structured grid (`include/grid.h`, `src/pde/grid.c`)

The ragged 2D arrays `region` and `id_map` are modelled as total maps
`Int → Int → Int` with pointwise update; cells never written keep the
construction-time defaults (`0` resp. `-1`), which extends the C arrays
benignly to out-of-range indices (in C those reads are out of bounds). -/

/-- An assignment `arr[i][j] = v` into a 2D map. -/
def upd2 (f : Int → Int → Int) (i j v : Int) : Int → Int → Int :=
  fun a b => if a = i ∧ b = j then v else f a b

/-- An assignment `arr[i] = v` into a 1D map. -/
def upd1 (f : Int → Int) (i v : Int) : Int → Int :=
  fun a => if a = i then v else f a

/-- `Grid2D` from `include/grid.h`. -/
structure Grid2D where
  nx : Nat
  ny : Nat
  hx : ℚ
  hy : ℚ
  x0 : ℚ
  x1 : ℚ
  y0 : ℚ
  y1 : ℚ
  x : List ℚ
  y : List ℚ
  region : Int → Int → Int
  id_map : Int → Int → Int
  n_active : Nat
  n_interior : Nat
  id_i : Int → Int
  id_j : Int → Int

/-- The classification callback type `region_divider_func`:
`(x, y, hx, hy) ↦ code`. -/
abbrev RegionDivider := ℚ → ℚ → ℚ → ℚ → Int

/-- The `(i, j)` visiting order of `initialize_Grid`'s nested loops:
`i` outer, `j` inner (row-major). -/
def rowMajor (nx ny : Nat) : List (Nat × Nat) :=
  (List.range nx).flatMap (fun i => (List.range ny).map (fun j => (i, j)))

/-- The mutable state of the first pass of `initialize_Grid`. -/
structure ClassifyState where
  region : Int → Int → Int
  id_map : Int → Int → Int
  n_active : Nat
  n_interior : Nat

/-- The loop body of the first pass of `initialize_Grid` at point
`(i, j)`: classify via `region_divider` and, for a positive code, hand
out the next sequential active index. -/
def classifyCell (rd : RegionDivider) (xs ys : List ℚ) (hx hy : ℚ)
    (s : ClassifyState) (p : Nat × Nat) : ClassifyState :=
  let rv := rd (xs.getD p.1 0) (ys.getD p.2 0) hx hy
  if 0 < rv then
    { region := upd2 s.region p.1 p.2 rv
      id_map := upd2 s.id_map p.1 p.2 ((s.n_active : Nat) : Int)
      n_active := s.n_active + 1
      n_interior := if rv = 1 then s.n_interior + 1 else s.n_interior }
  else
    { s with
      region := upd2 s.region p.1 p.2 0
      id_map := upd2 s.id_map p.1 p.2 (-1) }

/-- The whole first pass, starting from the `create_uniform_grid`
defaults (`region ≡ 0`, `id_map ≡ -1`, counters `0`). -/
def classifyAll (rd : RegionDivider) (xs ys : List ℚ) (hx hy : ℚ)
    (nx ny : Nat) : ClassifyState :=
  (rowMajor nx ny).foldl (classifyCell rd xs ys hx hy)
    ⟨fun _ _ => 0, fun _ _ => -1, 0, 0⟩

/-- The loop body of the second pass of `initialize_Grid`:
`id_i[id_map[i][j]] = i; id_j[id_map[i][j]] = j` for active points. -/
def reverseCell (cs : ClassifyState) (t : (Int → Int) × (Int → Int))
    (p : Nat × Nat) : (Int → Int) × (Int → Int) :=
  if 0 < cs.region p.1 p.2 then
    (upd1 t.1 (cs.id_map p.1 p.2) p.1, upd1 t.2 (cs.id_map p.1 p.2) p.2)
  else t

/-- The whole second pass.  The C arrays come back from `malloc`
uninitialised; every slot in `[0, n_active)` is written before any read,
so the arbitrary initial content is modelled as `0`. -/
def buildReverse (cs : ClassifyState) (nx ny : Nat) : (Int → Int) × (Int → Int) :=
  (rowMajor nx ny).foldl (reverseCell cs) (fun _ => 0, fun _ => 0)

/-- `initialize_Grid` from `src/pde/grid.c` (including the
`create_uniform_grid` construction it starts with):
`hx = (x1-x0)/(nx-1)`, coordinates `x[i] = x0 + i*hx`, then the two
classification passes. -/
def initialize_Grid (nx ny : Nat) (x0 x1 y0 y1 : ℚ) (rd : RegionDivider) : Grid2D :=
  let hx := (x1 - x0) / ((nx : ℚ) - 1)
  let hy := (y1 - y0) / ((ny : ℚ) - 1)
  let xs := (List.range nx).map (fun i => x0 + (i : ℚ) * hx)
  let ys := (List.range ny).map (fun j => y0 + (j : ℚ) * hy)
  let cs := classifyAll rd xs ys hx hy nx ny
  let t := buildReverse cs nx ny
  { nx := nx, ny := ny, hx := hx, hy := hy
    x0 := x0, x1 := x1, y0 := y0, y1 := y1
    x := xs, y := ys
    region := cs.region, id_map := cs.id_map
    n_active := cs.n_active, n_interior := cs.n_interior
    id_i := t.1, id_j := t.2 }

/-! ## Poisson assemblers (`src/pde/poisson2d.c`)

The physics callbacks are function parameters, as in the C code;
`sin`, `cos` and `fabs` from `libm` enter the Neumann assembler, and the
first two are likewise modelled as explicit function parameters
(`fabs` is exact: `|·|`). -/

/-- Source-term callback `f_func`. -/
abbrev FFunc := ℚ → ℚ → ℚ

/-- Boundary-value callback `boundary_func`: `(x, y, region code) ↦ value`. -/
abbrev BoundaryFunc := ℚ → ℚ → Int → ℚ

/-- Normal-angle callback `normal_func`: `region code ↦ α`. -/
abbrev NormalFunc := Int → ℚ

/-- The 5-point-stencil row emitted for an interior point, in the C
emission order: center `4.0`, then left, right, down, up neighbors with
`-1.0` at the columns read from `id_map`. -/
def stencilRow5 (g : Grid2D) (i : Nat) (gi gj : Int) : List (Int × ℚ) :=
  [(((i : Nat) : Int), 4),
   (g.id_map (gi - 1) gj, -1),
   (g.id_map (gi + 1) gj, -1),
   (g.id_map gi (gj - 1), -1),
   (g.id_map gi (gj + 1), -1)]

/-- One row of `assemble_Matrix_Dirichlet`: 5-point stencil for an
interior point (`region == 1`), identity row otherwise. -/
def dirichletRow (g : Grid2D) (i : Nat) : List (Int × ℚ) :=
  let gi := g.id_i ((i : Int))
  let gj := g.id_j ((i : Int))
  if g.region gi gj = 1 then stencilRow5 g i gi gj
  else [(((i : Nat) : Int), 1)]

/-- `assemble_Matrix_Dirichlet` from `src/pde/poisson2d.c`. -/
def assemble_Matrix_Dirichlet (g : Grid2D) : SparseCSR :=
  buildCSR g.n_active g.n_active ((List.range g.n_active).map (dirichletRow g))

/-- `assemble_RHS_Dirichlet` from `src/pde/poisson2d.c`:
`b[i] = f(xi,yj) * h * h` with `h = hx` (the code assumes `hx == hy`)
for interior points, the boundary-value callback otherwise. -/
def assemble_RHS_Dirichlet (g : Grid2D) (f : FFunc) (bv : BoundaryFunc) : List ℚ :=
  (List.range g.n_active).map (fun (i : Nat) =>
    let gi := g.id_i ((i : Nat) : Int)
    let gj := g.id_j ((i : Nat) : Int)
    let xi := getI g.x gi
    let yj := getI g.y gj
    if g.region gi gj = 1 then f xi yj * g.hx * g.hx
    else bv xi yj (g.region gi gj))

/-- The boundary row of `assemble_Matrix_Neumann`: self coefficient
`|sin α| + |cos α|`, then a y-neighbor picked by the sign of `sin α` and
an x-neighbor picked by the sign of `cos α`, each omitted when its
trigonometric weight is `≤ 1e-12` in absolute value. -/
def neumannBoundaryRow (g : Grid2D) (getn : NormalFunc) (sinF cosF : ℚ → ℚ)
    (i : Nat) (gi gj : Int) : List (Int × ℚ) :=
  let alpha := getn (g.region gi gj)
  let s := sinF alpha
  let c := cosF alpha
  [(((i : Nat) : Int), |s| + |c|)]
    ++ (if |s| > 1 / 1000000000000 then
          if s > 0 then [(g.id_map gi (gj - 1), -s)]
          else [(g.id_map gi (gj + 1), s)]
        else [])
    ++ (if |c| > 1 / 1000000000000 then
          if c > 0 then [(g.id_map (gi - 1) gj, -c)]
          else [(g.id_map (gi + 1) gj, c)]
        else [])

/-- The row loop of `assemble_Matrix_Neumann`, threading the `flag`
variable: the first interior point encountered gets a single diagonal
`1.0` and clears `flag`; later interior points get the 5-point stencil;
boundary points get `neumannBoundaryRow`. -/
def neumannRowsGo (g : Grid2D) (getn : NormalFunc) (sinF cosF : ℚ → ℚ) :
    List Nat → Bool → List (List (Int × ℚ))
  | [], _ => []
  | i :: rest, flag =>
    let gi := g.id_i ((i : Int))
    let gj := g.id_j ((i : Int))
    if g.region gi gj = 1 then
      if flag then [(((i : Nat) : Int), 1)] :: neumannRowsGo g getn sinF cosF rest false
      else stencilRow5 g i gi gj :: neumannRowsGo g getn sinF cosF rest false
    else neumannBoundaryRow g getn sinF cosF i gi gj
        :: neumannRowsGo g getn sinF cosF rest flag

/-- `assemble_Matrix_Neumann` from `src/pde/poisson2d.c`
(`flag` starts at `1`). -/
def assemble_Matrix_Neumann (g : Grid2D) (getn : NormalFunc)
    (sinF cosF : ℚ → ℚ) : SparseCSR :=
  buildCSR g.n_active g.n_active
    (neumannRowsGo g getn sinF cosF (List.range g.n_active) true)

/-- The RHS loop of `assemble_RHS_Neumann`, threading its `flag`: the
first interior point gets `get_exact(xi,yj)`, later interior points get
`f(xi,yj)*h*h`, boundary points get the flux value scaled by `h`
(`h = hx`, the code assumes `hx == hy`). -/
def neumannRHSGo (g : Grid2D) (f : FFunc) (bv : BoundaryFunc) (get_exact : FFunc) :
    List Nat → Bool → List ℚ
  | [], _ => []
  | i :: rest, flag =>
    let gi := g.id_i ((i : Int))
    let gj := g.id_j ((i : Int))
    let xi := getI g.x gi
    let yj := getI g.y gj
    if g.region gi gj = 1 then
      if flag then get_exact xi yj :: neumannRHSGo g f bv get_exact rest false
      else f xi yj * g.hx * g.hx :: neumannRHSGo g f bv get_exact rest false
    else bv xi yj (g.region gi gj) * g.hx :: neumannRHSGo g f bv get_exact rest flag

/-- `assemble_RHS_Neumann` from `src/pde/poisson2d.c`. -/
def assemble_RHS_Neumann (g : Grid2D) (f : FFunc) (bv : BoundaryFunc)
    (get_exact : FFunc) : List ℚ :=
  neumannRHSGo g f bv get_exact (List.range g.n_active) true

/-! ## ADI assembler (`src/pde/parabolic.c`) -/

/-- One row of an ADI split operator: interior points get
`center` on the diagonal plus the two `neighbor`-weighted entries in the
given direction (`inX = true`: left/right, else down/up, in the C
emission order), boundary points a single diagonal entry `bdry`. -/
def adiRow (g : Grid2D) (center neighbor bdry : ℚ) (inX : Bool) (i : Nat) :
    List (Int × ℚ) :=
  let gi := g.id_i ((i : Int))
  let gj := g.id_j ((i : Int))
  if g.region gi gj = 1 then
    if inX then
      [(((i : Nat) : Int), center),
       (g.id_map (gi - 1) gj, neighbor),
       (g.id_map (gi + 1) gj, neighbor)]
    else
      [(((i : Nat) : Int), center),
       (g.id_map gi (gj - 1), neighbor),
       (g.id_map gi (gj + 1), neighbor)]
  else [(((i : Nat) : Int), bdry)]

/-- `assemble_Matrix_Parabolic_ADI` from `src/pde/parabolic.c`:
with `μx = τ/hx/hx` and `μy = τ/hy/hy`, the four operators
`(plus_delta_y, minus_delta_x, plus_delta_x, minus_delta_y)` in the
order the C code stores them. -/
def assemble_Matrix_Parabolic_ADI (g : Grid2D) (tau : ℚ) :
    SparseCSR × SparseCSR × SparseCSR × SparseCSR :=
  let mu_x := tau / g.hx / g.hx
  let mu_y := tau / g.hy / g.hy
  (buildCSR g.n_active g.n_active
      ((List.range g.n_active).map (adiRow g (1 - mu_y) (mu_y / 2) 0 false)),
   buildCSR g.n_active g.n_active
      ((List.range g.n_active).map (adiRow g (1 + mu_x) (-mu_x / 2) 1 true)),
   buildCSR g.n_active g.n_active
      ((List.range g.n_active).map (adiRow g (1 - mu_x) (mu_x / 2) 0 true)),
   buildCSR g.n_active g.n_active
      ((List.range g.n_active).map (adiRow g (1 + mu_y) (-mu_y / 2) 1 false)))

/-! ## Convergence observers

The C solvers return `void` and stop silently; whether the `break` was
taken (criterion met) or the budget ran out is observable only through
the control flow.  These observers re-run exactly the same loop and
report which exit was taken. -/

/-- `true` iff `Jacobi_csr`'s loop exits through its `break`
(`sqrt(norm) < tol`) within the iteration budget. -/
def jacobiStops (A : SparseCSR) (b : List ℚ) : List ℚ → Nat → ℚ → Bool
  | _, 0, _ => false
  | x, rest + 1, tol =>
    let x_new := jacobiSweep A b x
    if sqrtLt (normSqDiff x_new x A.rows) tol then true
    else jacobiStops A b x_new rest tol

/-- `true` iff `GaussSeidel_csr`'s loop exits through its `break`. -/
def gsStops (A : SparseCSR) (b : List ℚ) : List ℚ → Nat → ℚ → Bool
  | _, 0, _ => false
  | x, rest + 1, tol =>
    let s := gsSweep A b x
    if sqrtLt s.2 tol then true else gsStops A b s.1 rest tol

/-- `true` iff `CG_loop` exits through its `break`. -/
def cgStops (A : SparseCSR) : CGState → Nat → ℚ → Bool
  | _, 0, _ => false
  | s, rest + 1, tol =>
    let Ap := spmv_csr A s.p
    let alpha := s.rsold / vec_dot s.p Ap A.rows
    let x' := (List.range A.rows).map (fun i => s.x.getD i 0 + alpha * s.p.getD i 0)
    let r' := (List.range A.rows).map (fun i => s.r.getD i 0 - alpha * Ap.getD i 0)
    let rsnew := vec_dot r' r' A.rows
    if sqrtLt rsnew tol then true
    else
      cgStops A
        ⟨x', r',
         (List.range A.rows).map (fun i => r'.getD i 0 + rsnew / s.rsold * s.p.getD i 0),
         rsnew⟩ rest tol

/-- `true` iff `CG_csr`'s loop exits through its `break`. -/
def cgStopsFrom (A : SparseCSR) (b x : List ℚ) (max_iter : Nat) (tol : ℚ) : Bool :=
  let r0 := (List.range A.rows).map (fun i => b.getD i 0 - (spmv_csr A x).getD i 0)
  cgStops A ⟨x, r0, r0, vec_dot r0 r0 A.rows⟩ max_iter tol

/-! ## State-level solver runs

The C solvers receive `const SparseCSR *matrix` and `const double *b`
and write through neither; the only caller-visible mutation is the
solution vector `x`.  The state-level runs below iterate the same loops
over the full caller-visible state `(matrix, b, x)`; the preservation of
`matrix` and `b` is then proved by induction over the loop. -/

/-- The caller-visible state of one solver invocation. -/
structure SolverState where
  A : SparseCSR
  b : List ℚ
  x : List ℚ

/-- `Jacobi_csr`'s loop as a transformer of the caller-visible state. -/
def Jacobi_state_loop : SolverState → Nat → ℚ → SolverState
  | s, 0, _ => s
  | s, rest + 1, tol =>
    let x_new := jacobiSweep s.A s.b s.x
    if sqrtLt (normSqDiff x_new s.x s.A.rows) tol then { s with x := x_new }
    else Jacobi_state_loop { s with x := x_new } rest tol

/-- `GaussSeidel_csr`'s loop as a state transformer. -/
def GaussSeidel_state_loop : SolverState → Nat → ℚ → SolverState
  | s, 0, _ => s
  | s, rest + 1, tol =>
    let sw := gsSweep s.A s.b s.x
    if sqrtLt sw.2 tol then { s with x := sw.1 }
    else GaussSeidel_state_loop { s with x := sw.1 } rest tol

/-- The function-local variables of `CG_csr` (`r`, `p`, `rsold`;
`malloc`ed and freed inside the call, never caller-visible). -/
structure CGLocals where
  r : List ℚ
  p : List ℚ
  rsold : ℚ

/-- `CG_csr`'s loop as a state transformer (locals threaded alongside). -/
def CG_state_loop : SolverState → CGLocals → Nat → ℚ → SolverState
  | s, _, 0, _ => s
  | s, loc, rest + 1, tol =>
    let Ap := spmv_csr s.A loc.p
    let alpha := loc.rsold / vec_dot loc.p Ap s.A.rows
    let x' := (List.range s.A.rows).map (fun i => s.x.getD i 0 + alpha * loc.p.getD i 0)
    let r' := (List.range s.A.rows).map (fun i => loc.r.getD i 0 - alpha * Ap.getD i 0)
    let rsnew := vec_dot r' r' s.A.rows
    if sqrtLt rsnew tol then { s with x := x' }
    else
      CG_state_loop { s with x := x' }
        ⟨r',
         (List.range s.A.rows).map (fun i => r'.getD i 0 + rsnew / loc.rsold * loc.p.getD i 0),
         rsnew⟩ rest tol

/-- `Jacobi_csr` on the caller-visible state. -/
def Jacobi_csr_state (s : SolverState) (max_iter : Nat) (tol : ℚ) : SolverState :=
  Jacobi_state_loop s max_iter tol

/-- `GaussSeidel_csr` on the caller-visible state. -/
def GaussSeidel_csr_state (s : SolverState) (max_iter : Nat) (tol : ℚ) : SolverState :=
  GaussSeidel_state_loop s max_iter tol

/-- `CG_csr` on the caller-visible state. -/
def CG_csr_state (s : SolverState) (max_iter : Nat) (tol : ℚ) : SolverState :=
  let r0 := (List.range s.A.rows).map (fun i => s.b.getD i 0 - (spmv_csr s.A s.x).getD i 0)
  CG_state_loop s ⟨r0, r0, vec_dot r0 r0 s.A.rows⟩ max_iter tol

/-! ## CSR well-formedness -/

/-- The CSR layout invariants assumed by the spec: `row_ptr` has length
`rows+1`, starts at `0`, is non-decreasing and ends at `nnz`; `col_ind`
and `values` have length `nnz`; every stored column index is in
`[0, cols)`. -/
abbrev CSRWF (A : SparseCSR) : Prop :=
  A.row_ptr.length = A.rows + 1 ∧
  A.rp 0 = 0 ∧
  (∀ i < A.rows, A.rp i ≤ A.rp (i + 1)) ∧
  A.rp A.rows = A.nnz ∧
  A.col_ind.length = A.nnz ∧
  A.values.length = A.nnz ∧
  (∀ k < A.nnz, 0 ≤ A.col_ind.getD k 0 ∧ A.col_ind.getD k 0 < (A.cols : Int))

/-- Row `i` has exactly one stored diagonal entry. -/
abbrev hasOneDiag (A : SparseCSR) : Prop :=
  ∀ i < A.rows, ((A.rowSeg i).filter (fun e => e.1 = (i : Int))).length = 1

/-! ## Concrete fixtures -/

/-- The 3×3 test fixture of `tests/test_csr_3x3.c`:
`[[4,-1,0],[-1,4,-1],[0,-1,3]]`. -/
def A33 : SparseCSR :=
  ⟨3, 3, 7, [0, 2, 5, 7], [0, 1, 0, 1, 2, 1, 2], [4, -1, -1, 4, -1, -1, 3]⟩

/-- `b = [15, 10, 10]` from `tests/test_csr_3x3.c`. -/
def b33 : List ℚ := [15, 10, 10]

/-- `tol = 1e-6` from `tests/test_csr_3x3.c`. -/
def tol0 : ℚ := 1 / 1000000

/-- A region divider marking the center of a 3×3 grid interior (`1`)
and every other point boundary type `2`. -/
def rdDemo : RegionDivider := fun x y _ _ => if x = 1 ∧ y = 1 then 1 else 2

/-- 3×3 demo grid on `[0,2] × [0,2]` (`hx = hy = 1`): one interior
point `(1,1)` with active index 4, eight boundary points. -/
def gDemo : Grid2D := initialize_Grid 3 3 0 2 0 2 rdDemo

/-- A region divider marking `(1, 2)` (grid point `(1,1)` of `gDemo2`)
interior and the rest boundary type `2`. -/
def rdDemo2 : RegionDivider := fun x y _ _ => if x = 1 ∧ y = 2 then 1 else 2

/-- 3×3 demo grid on `[0,2] × [0,4]`, so `hx = 1 ≠ 2 = hy`. -/
def gDemo2 : Grid2D := initialize_Grid 3 3 0 2 0 4 rdDemo2

/-- A region divider with two interior points `(1,1)` and `(2,1)`
(coordinates), the rest boundary type `2`. -/
def rdDemo3 : RegionDivider :=
  fun x y _ _ => if (x = 1 ∨ x = 2) ∧ y = 1 then 1 else 2

/-- 4×3 demo grid on `[0,3] × [0,2]` (`hx = hy = 1`): interior points
at active indices 4 and 7. -/
def gDemo3 : Grid2D := initialize_Grid 4 3 0 3 0 2 rdDemo3

/-! ## Basic evaluation lemmas -/

theorem getD_map_range {α : Type} (f : Nat → α) (n i : Nat) (d : α) (h : i < n) :
    ((List.range n).map f).getD i d = f i := by
  rw [List.getD_eq_getElem _ _ (by simpa using h)]
  simp

theorem map_getD_self (x : List ℚ) : (List.range x.length).map (fun i => x.getD i 0) = x := by
  apply List.ext_getElem (by simp)
  intro i h1 h2
  simp only [List.getElem_map, List.getElem_range]
  rw [List.getD_eq_getElem _ _ h2]

theorem foldl_add_range' (f : Nat → ℚ) : ∀ (n s : Nat) (a : ℚ),
    (List.range' s n).foldl (fun acc j => acc + f j) a
      = a + ∑ j ∈ Finset.Ico s (s + n), f j
  | 0, s, a => by simp
  | n + 1, s, a => by
      rw [List.range'_succ, List.foldl_cons, foldl_add_range' f n (s + 1) (a + f s),
        Finset.sum_eq_sum_Ico_succ_bot (by omega : s < s + (n + 1)) f]
      have : s + 1 + n = s + (n + 1) := by omega
      rw [this, add_assoc]

theorem spmv_row_eq_sum (A : SparseCSR) (x : List ℚ) (i : Nat)
    (h : A.rp i ≤ A.rp (i + 1)) :
    spmv_row A x i
      = ∑ k ∈ Finset.Ico (A.rp i) (A.rp (i + 1)),
          A.values.getD k 0 * getI x (A.col_ind.getD k 0) := by
  unfold spmv_row
  rw [foldl_add_range', Nat.add_sub_cancel' h, zero_add]

theorem identityCSR_rp (n i : Nat) (h : i ≤ n) : (identityCSR n).rp i = i := by
  simp only [identityCSR, SparseCSR.rp]
  rw [List.getD_eq_getElem _ _ (by simpa using Nat.lt_succ_of_le h)]
  simp

/-- C5, part 2 in isolation: one row of `A * x` for the identity
matrix. -/
theorem spmv_row_identity (n : Nat) (x : List ℚ) (i : Nat) (h : i < n) :
    spmv_row (identityCSR n) x i = x.getD i 0 := by
  unfold spmv_row
  rw [identityCSR_rp n i (Nat.le_of_lt h), identityCSR_rp n (i + 1) h]
  simp only [Nat.add_sub_cancel_left]
  rw [List.range'_one]
  simp only [List.foldl_cons, List.foldl_nil, identityCSR]
  rw [List.getD_eq_getElem _ _ (by simpa using h),
    List.getD_eq_getElem _ _ (by simpa using h)]
  simp [getI]

/-- **C5.** `spmv_csr` computes
`y[i] = Σ_{k ∈ [row_ptr[i], row_ptr[i+1])} values[k]·x[col_ind[k]]` for
every row, and multiplying the `n×n` identity CSR matrix by any vector
of length `n` returns the vector unchanged (any `n ≥ 0`). -/
theorem spmv_csr_spec :
    (∀ (A : SparseCSR) (x : List ℚ), (∀ i < A.rows, A.rp i ≤ A.rp (i + 1)) →
        ∀ i < A.rows,
          (spmv_csr A x).getD i 0
            = ∑ k ∈ Finset.Ico (A.rp i) (A.rp (i + 1)),
                A.values.getD k 0 * getI x (A.col_ind.getD k 0)) ∧
    (∀ (n : Nat) (x : List ℚ), x.length = n → spmv_csr (identityCSR n) x = x) := by
  constructor
  · intro A x hmono i hi
    unfold spmv_csr
    rw [getD_map_range _ _ _ _ hi]
    exact spmv_row_eq_sum A x i (hmono i hi)
  · intro n x hlen
    subst hlen
    unfold spmv_csr
    show (List.range x.length).map (spmv_row (identityCSR x.length) x) = x
    calc (List.range x.length).map (spmv_row (identityCSR x.length) x)
        = (List.range x.length).map (fun i => x.getD i 0) := by
          apply List.map_congr_left
          intro i hi
          exact spmv_row_identity _ _ _ (List.mem_range.mp hi)
      _ = x := map_getD_self x

/-- Witness for C5 at a concrete instance: the identity on `[3, 1, 4]`
and one concrete row sum. -/
theorem spmv_csr_spec_witness :
    spmv_csr (identityCSR 3) [3, 1, 4] = [3, 1, 4] ∧
    (spmv_csr A33 [1, 1, 1]).getD 0 0
      = ∑ k ∈ Finset.Ico (A33.rp 0) (A33.rp 1),
          A33.values.getD k 0 * getI [1, 1, 1] (A33.col_ind.getD k 0) :=
  ⟨spmv_csr_spec.2 3 [3, 1, 4] rfl,
   spmv_csr_spec.1 A33 [1, 1, 1] (by decide) 0 (by decide)⟩

/-! ## Frame property of the solvers (claim C10) -/

theorem Jacobi_state_loop_spec : ∀ (mi : Nat) (s : SolverState) (tol : ℚ),
    (Jacobi_state_loop s mi tol).A = s.A ∧
    (Jacobi_state_loop s mi tol).b = s.b ∧
    (Jacobi_state_loop s mi tol).x = Jacobi_loop s.A s.b s.x mi tol
  | 0, s, tol => ⟨rfl, rfl, rfl⟩
  | mi + 1, s, tol => by
      simp only [Jacobi_state_loop, Jacobi_loop]
      split
      · exact ⟨rfl, rfl, rfl⟩
      · exact Jacobi_state_loop_spec mi { s with x := jacobiSweep s.A s.b s.x } tol

theorem GaussSeidel_state_loop_spec : ∀ (mi : Nat) (s : SolverState) (tol : ℚ),
    (GaussSeidel_state_loop s mi tol).A = s.A ∧
    (GaussSeidel_state_loop s mi tol).b = s.b ∧
    (GaussSeidel_state_loop s mi tol).x = GaussSeidel_loop s.A s.b s.x mi tol
  | 0, s, tol => ⟨rfl, rfl, rfl⟩
  | mi + 1, s, tol => by
      simp only [GaussSeidel_state_loop, GaussSeidel_loop]
      split
      · exact ⟨rfl, rfl, rfl⟩
      · exact GaussSeidel_state_loop_spec mi { s with x := (gsSweep s.A s.b s.x).1 } tol

theorem CG_state_loop_spec : ∀ (mi : Nat) (s : SolverState) (loc : CGLocals) (tol : ℚ),
    (CG_state_loop s loc mi tol).A = s.A ∧
    (CG_state_loop s loc mi tol).b = s.b ∧
    (CG_state_loop s loc mi tol).x
      = CG_loop s.A ⟨s.x, loc.r, loc.p, loc.rsold⟩ mi tol
  | 0, s, loc, tol => ⟨rfl, rfl, rfl⟩
  | mi + 1, s, loc, tol => by
      simp only [CG_state_loop, CG_loop]
      split
      · exact ⟨rfl, rfl, rfl⟩
      · exact CG_state_loop_spec mi _ _ tol

/-- **C10.** Each solver leaves the matrix and the right-hand side
unchanged; the only caller-visible state it mutates is the solution
vector `x`, which receives exactly the corresponding functional
solver's result. -/
theorem solvers_frame_spec (s : SolverState) (max_iter : Nat) (tol : ℚ) :
    ((Jacobi_csr_state s max_iter tol).A = s.A ∧
     (Jacobi_csr_state s max_iter tol).b = s.b ∧
     (Jacobi_csr_state s max_iter tol).x = Jacobi_csr s.A s.b s.x max_iter tol) ∧
    ((GaussSeidel_csr_state s max_iter tol).A = s.A ∧
     (GaussSeidel_csr_state s max_iter tol).b = s.b ∧
     (GaussSeidel_csr_state s max_iter tol).x
        = GaussSeidel_csr s.A s.b s.x max_iter tol) ∧
    ((CG_csr_state s max_iter tol).A = s.A ∧
     (CG_csr_state s max_iter tol).b = s.b ∧
     (CG_csr_state s max_iter tol).x = CG_csr s.A s.b s.x max_iter tol) :=
  ⟨Jacobi_state_loop_spec max_iter s tol,
   GaussSeidel_state_loop_spec max_iter s tol,
   CG_state_loop_spec max_iter s _ tol⟩

/-! ## The 3×3 test fixture (claim C8)

The claim is settled in the exact-arithmetic model of `double`:
every quantity below is a concrete rational and the runs are fully
evaluated. -/

set_option maxRecDepth 20000 in
/-- **C8.** On the fixture `A = [[4,-1,0],[-1,4,-1],[0,-1,3]]`,
`b = [15,10,10]`, zero initial guess, `max_iter = 50`, `tol = 1e-6`,
each of Jacobi, Gauss-Seidel and CG exits through its convergence
`break` (not by exhausting the budget), and every component of each
returned solution is within `1e-6` of `[5,5,5]`. -/
theorem fixture3x3_solvers_converge :
    (jacobiStops A33 b33 [0, 0, 0] 50 tol0 = true ∧
      ((Jacobi_csr A33 b33 [0, 0, 0] 50 tol0).map (fun v => |v - 5|)).all
        (fun q => decide (q < tol0)) = true) ∧
    (gsStops A33 b33 [0, 0, 0] 50 tol0 = true ∧
      ((GaussSeidel_csr A33 b33 [0, 0, 0] 50 tol0).map (fun v => |v - 5|)).all
        (fun q => decide (q < tol0)) = true) ∧
    (cgStopsFrom A33 b33 [0, 0, 0] 50 tol0 = true ∧
      ((CG_csr A33 b33 [0, 0, 0] 50 tol0).map (fun v => |v - 5|)).all
        (fun q => decide (q < tol0)) = true) := by
  refine ⟨⟨?_, ?_⟩, ⟨?_, ?_⟩, ⟨?_, ?_⟩⟩ <;> with_unfolding_all decide

/-! ## The D/L/U split (claim C2) -/

theorem filter_nil_foldl_keep {α : Type} (p : α → Prop) [DecidablePred p] (g : α → ℚ) :
    ∀ (l : List α) (d : ℚ), l.filter (fun x => decide (p x)) = [] →
      l.foldl (fun acc x => if p x then g x else acc) d = d
  | [], _, _ => rfl
  | h :: t, d, hf => by
      by_cases hp : p h
      · simp [List.filter_cons, hp] at hf
      · simp only [List.filter_cons, decide_eq_true_eq] at hf
        rw [if_neg hp] at hf
        simp only [List.foldl_cons, if_neg hp]
        exact filter_nil_foldl_keep p g t d hf

theorem filter_singleton_foldl {α : Type} (p : α → Prop) [DecidablePred p] (g : α → ℚ) :
    ∀ (l : List α) (e : α) (d : ℚ), l.filter (fun x => decide (p x)) = [e] →
      l.foldl (fun acc x => if p x then g x else acc) d = g e
  | [], e, d, hf => by simp at hf
  | h :: t, e, d, hf => by
      by_cases hp : p h
      · simp only [List.filter_cons, decide_eq_true_eq] at hf
        rw [if_pos hp] at hf
        obtain ⟨he, ht⟩ := List.cons.inj hf
        subst he
        simp only [List.foldl_cons, if_pos hp]
        exact filter_nil_foldl_keep p g t (g h) ht
      · simp only [List.filter_cons, decide_eq_true_eq] at hf
        rw [if_neg hp] at hf
        simp only [List.foldl_cons, if_neg hp]
        exact filter_singleton_foldl p g t e d hf

/-- Any row with a unique diagonal entry splits, up to permutation, into
that diagonal entry, the `col < row` entries and the `col > row`
entries. -/
theorem row_three_way_perm (i : Int) (l : List (Int × ℚ)) (e : Int × ℚ)
    (hd : l.filter (fun x => decide (x.1 = i)) = [e]) :
    [e] ++ l.filter (fun x => decide (x.1 < i)) ++ l.filter (fun x => decide (i < x.1))
      ~ l := by
  have base := List.filter_append_perm (fun x => decide (x.1 < i)) l
  set l₂ := l.filter (fun x => !decide (x.1 < i)) with hl₂
  have base2 := List.filter_append_perm (fun x => decide (x.1 = i)) l₂
  have heq1 : l₂.filter (fun x => decide (x.1 = i))
      = l.filter (fun x => decide (x.1 = i)) := by
    rw [hl₂, List.filter_filter]
    apply List.filter_congr
    intro x _
    by_cases hx : x.1 = i
    · simp [hx]
    · simp [hx]
  have heq2 : l₂.filter (fun x => !decide (x.1 = i))
      = l.filter (fun x => decide (i < x.1)) := by
    rw [hl₂, List.filter_filter]
    apply List.filter_congr
    intro x _
    rcases lt_trichotomy x.1 i with hx | hx | hx
    · simp [hx, not_lt.mpr (le_of_lt hx), ne_of_lt hx]
    · simp [hx]
    · simp [hx, not_lt.mpr (le_of_lt hx), (ne_of_gt hx)]
  calc [e] ++ l.filter (fun x => decide (x.1 < i)) ++ l.filter (fun x => decide (i < x.1))
      ~ l.filter (fun x => decide (x.1 < i)) ++ ([e] ++ l.filter (fun x => decide (i < x.1))) := by
        rw [List.append_assoc]
        exact List.perm_append_comm_assoc _ _ _
    _ = l.filter (fun x => decide (x.1 < i))
          ++ (l₂.filter (fun x => decide (x.1 = i)) ++ l₂.filter (fun x => !decide (x.1 = i))) := by
        rw [heq1, heq2, hd]
    _ ~ l.filter (fun x => decide (x.1 < i)) ++ l₂ := base2.append_left _
    _ ~ l := base

theorem get_D_L_U_rowSegs (A : SparseCSR) (i : Nat) (hi : i < A.rows) :
    (get_D_L_U_csr A).1.rowSeg i = [(((i : Nat) : Int), diagValue A i)] ∧
    (get_D_L_U_csr A).2.1.rowSeg i
      = (A.rowSeg i).filter (fun e => e.1 < (i : Int)) ∧
    (get_D_L_U_csr A).2.2.rowSeg i
      = (A.rowSeg i).filter (fun e => (i : Int) < e.1) := by
  refine ⟨?_, ?_, ?_⟩ <;>
    · show (buildCSR _ _ _).rowSeg i = _
      rw [buildCSR_rowSeg _ _ _ i (by simpa using hi), List.getD_eq_getElem _ _ (by simpa using hi)]
      simp

theorem flatMap_append_perm {α β : Type} (f g : α → List β) :
    ∀ (l : List α), (l.flatMap f) ++ (l.flatMap g) ~ l.flatMap (fun x => f x ++ g x)
  | [] => by simp
  | a :: t => by
      simp only [List.flatMap_cons]
      calc (f a ++ t.flatMap f) ++ (g a ++ t.flatMap g)
          ~ f a ++ (t.flatMap f ++ (g a ++ t.flatMap g)) := by rw [List.append_assoc]
        _ ~ f a ++ (g a ++ (t.flatMap f ++ t.flatMap g)) := by
            apply List.Perm.append_left
            calc t.flatMap f ++ (g a ++ t.flatMap g)
                ~ (t.flatMap f ++ g a) ++ t.flatMap g := by rw [List.append_assoc]
              _ ~ (g a ++ t.flatMap f) ++ t.flatMap g :=
                  (List.perm_append_comm).append_right _
              _ ~ g a ++ (t.flatMap f ++ t.flatMap g) := by rw [List.append_assoc]
        _ ~ f a ++ (g a ++ t.flatMap (fun x => f x ++ g x)) :=
            ((flatMap_append_perm f g t).append_left _).append_left _
        _ = (f a ++ g a) ++ t.flatMap (fun x => f x ++ g x) := by rw [List.append_assoc]

theorem flatMap_perm_congr {α β : Type} (f g : α → List β) :
    ∀ (l : List α), (∀ x ∈ l, f x ~ g x) → l.flatMap f ~ l.flatMap g
  | [], _ => by simp
  | a :: t, h => by
      simp only [List.flatMap_cons]
      exact (h a (List.mem_cons_self a t)).append
        (flatMap_perm_congr f g t (fun x hx => h x (List.mem_cons_of_mem a hx)))

/-- **C2 (amended).** For any well-formed CSR matrix with exactly one
diagonal entry per row, the triple `(D, L, U)` returned by
`get_D_L_U_csr` reconstructs the matrix entrywise as a multiset of
`(row, col, value)` triples; `L` holds exactly the entries with
`col < row` (in order), `U` exactly those with `col > row`, and `D`
exactly one diagonal entry per row carrying that row's diagonal
value. -/
theorem get_D_L_U_csr_spec (A : SparseCSR) (hone : hasOneDiag A) :
    ((get_D_L_U_csr A).1.entriesList ++ (get_D_L_U_csr A).2.1.entriesList
        ++ (get_D_L_U_csr A).2.2.entriesList) ~ A.entriesList ∧
    (∀ i < A.rows,
      (get_D_L_U_csr A).2.1.rowSeg i
          = (A.rowSeg i).filter (fun e => e.1 < (i : Int)) ∧
      (get_D_L_U_csr A).2.2.rowSeg i
          = (A.rowSeg i).filter (fun e => (i : Int) < e.1) ∧
      (get_D_L_U_csr A).1.rowSeg i = [(((i : Nat) : Int), diagValue A i)] ∧
      (A.rowSeg i).filter (fun e => e.1 = (i : Int))
          = [(((i : Nat) : Int), diagValue A i)]) := by
  have hDiagRow : ∀ i, i < A.rows →
      (A.rowSeg i).filter (fun e => e.1 = (i : Int))
        = [(((i : Nat) : Int), diagValue A i)] := by
    intro i hi
    obtain ⟨e, he⟩ := List.length_eq_one.mp (hone i hi)
    have he1 : e.1 = (i : Int) := by
      have : e ∈ (A.rowSeg i).filter (fun e => e.1 = (i : Int)) := by
        rw [he]; exact List.mem_singleton_self e
      simpa using (List.mem_filter.mp this).2
    have he2 : diagValue A i = e.2 :=
      filter_singleton_foldl (fun e : Int × ℚ => e.1 = (i : Int)) Prod.snd
        (A.rowSeg i) e 0 he
    rw [he, he2, ← he1]
  constructor
  · have hD : (get_D_L_U_csr A).1.entriesList
        = (List.range A.rows).flatMap
            (fun i => ((A.rowSeg i).filter (fun e => e.1 = (i : Int))).map
              (fun e => (i, e.1, e.2))) := by
      show (buildCSR _ _ _).entriesList = _
      rw [buildCSR_entriesList _ _ _ (by simp)]
      apply List.flatMap_congr
      intro i hi
      rw [getD_map_range _ _ _ _ (List.mem_range.mp hi), hDiagRow i (List.mem_range.mp hi)]
    have hL : (get_D_L_U_csr A).2.1.entriesList
        = (List.range A.rows).flatMap
            (fun i => ((A.rowSeg i).filter (fun e => e.1 < (i : Int))).map
              (fun e => (i, e.1, e.2))) := by
      show (buildCSR _ _ _).entriesList = _
      rw [buildCSR_entriesList _ _ _ (by simp)]
      apply List.flatMap_congr
      intro i hi
      rw [getD_map_range _ _ _ _ (List.mem_range.mp hi)]
    have hU : (get_D_L_U_csr A).2.2.entriesList
        = (List.range A.rows).flatMap
            (fun i => ((A.rowSeg i).filter (fun e => (i : Int) < e.1)).map
              (fun e => (i, e.1, e.2))) := by
      show (buildCSR _ _ _).entriesList = _
      rw [buildCSR_entriesList _ _ _ (by simp)]
      apply List.flatMap_congr
      intro i hi
      rw [getD_map_range _ _ _ _ (List.mem_range.mp hi)]
    rw [hD, hL, hU]
    calc (List.range A.rows).flatMap
            (fun i => ((A.rowSeg i).filter (fun e => e.1 = (i : Int))).map
              (fun e => (i, e.1, e.2)))
          ++ (List.range A.rows).flatMap
            (fun i => ((A.rowSeg i).filter (fun e => e.1 < (i : Int))).map
              (fun e => (i, e.1, e.2)))
          ++ (List.range A.rows).flatMap
            (fun i => ((A.rowSeg i).filter (fun e => (i : Int) < e.1)).map
              (fun e => (i, e.1, e.2)))
        ~ (List.range A.rows).flatMap
            (fun i => ((A.rowSeg i).filter (fun e => e.1 = (i : Int))).map
                (fun e => (i, e.1, e.2))
              ++ ((A.rowSeg i).filter (fun e => e.1 < (i : Int))).map
                (fun e => (i, e.1, e.2))
              ++ ((A.rowSeg i).filter (fun e => (i : Int) < e.1)).map
                (fun e => (i, e.1, e.2))) := by
          refine ((flatMap_append_perm _ _ _).append_right _).trans ?_
          refine (flatMap_append_perm _ _ _).trans ?_
          exact List.Perm.refl _
      _ ~ (List.range A.rows).flatMap
            (fun i => (A.rowSeg i).map (fun e => (i, e.1, e.2))) := by
          apply flatMap_perm_congr
          intro i hi
          have hi' := List.mem_range.mp hi
          have hperm := row_three_way_perm (i : Int) (A.rowSeg i)
            (((i : Nat) : Int), diagValue A i) (hDiagRow i hi')
          have := hperm.map (fun e : Int × ℚ => ((i : Nat), e.1, e.2))
          simpa [List.map_append, hDiagRow i hi'] using this
      _ = A.entriesList := rfl
  · intro i hi
    obtain ⟨h1, h2, h3⟩ := get_D_L_U_rowSegs A i hi
    exact ⟨h2, h3, h1, hDiagRow i hi⟩

/-- A well-formed 1×1 CSR matrix whose single row stores **two**
diagonal entries, `(0,0,1)` and `(0,0,2)`.  It has a diagonal entry in
its (only) row, yet the D/L/U split drops one of the two stored
triples. -/
def Adup : SparseCSR := ⟨1, 1, 2, [0, 2], [0, 0], [1, 2]⟩

/-- Counterexample to C2 as stated: `Adup` has a diagonal entry in every
row (row 0 stores two of them), but `D ++ L ++ U` is **not** a multiset
reconstruction of the matrix — the split keeps only the last diagonal
entry of the row. -/
theorem get_D_L_U_csr_dup_counterexample :
    Adup.rows = 1 ∧
    ((Adup.rowSeg 0).filter (fun e => e.1 = (0 : Int))).length = 2 ∧
    ¬ (((get_D_L_U_csr Adup).1.entriesList ++ (get_D_L_U_csr Adup).2.1.entriesList
        ++ (get_D_L_U_csr Adup).2.2.entriesList) ~ Adup.entriesList) := by
  refine ⟨rfl, by decide, fun h => ?_⟩
  have hlen := h.length_eq
  revert hlen
  with_unfolding_all decide

/-- Witness for C2 (amended) at the 3×3 fixture: its D/L/U split
reconstructs the matrix as a multiset of triples. -/
theorem get_D_L_U_csr_spec_witness :
    ((get_D_L_U_csr A33).1.entriesList ++ (get_D_L_U_csr A33).2.1.entriesList
        ++ (get_D_L_U_csr A33).2.2.entriesList) ~ A33.entriesList :=
  (get_D_L_U_csr_spec A33 (by with_unfolding_all decide)).1

/-! ## Jacobi iteration against the spec formula (claim C4) -/

theorem foldl_add_range (f : Nat → ℚ) (n : Nat) :
    (List.range n).foldl (fun acc i => acc + f i) 0 = ∑ i ∈ Finset.range n, f i := by
  rw [List.range_eq_range', foldl_add_range' f n 0 0, zero_add, Finset.range_eq_Ico]
  simp

theorem rp_mono_trans (A : SparseCSR) (hmono : ∀ i < A.rows, A.rp i ≤ A.rp (i + 1)) :
    ∀ k j, j ≤ k → k ≤ A.rows → A.rp j ≤ A.rp k
  | 0, j, hjk, _ => by
      have : j = 0 := Nat.le_zero.mp hjk
      simp [this]
  | k + 1, j, hjk, hk => by
      rcases Nat.eq_or_lt_of_le hjk with h | h
      · simp [h]
      · exact le_trans
          (rp_mono_trans A hmono k j (Nat.lt_succ_iff.mp h) (le_trans (Nat.le_succ k) hk))
          (hmono k (Nat.lt_of_succ_le hk))

theorem range'_map_getD {α : Type} (l : List α) (d : α) :
    ∀ (n a : Nat), a + n ≤ l.length →
      (List.range' a n).map (fun k => l.getD k d) = (l.drop a).take n
  | 0, a, _ => by simp
  | n + 1, a, h => by
      rw [List.range'_succ, List.map_cons,
        range'_map_getD l d n (a + 1) (by omega)]
      have ha : a < l.length := by omega
      rw [List.getD_eq_getElem _ _ ha]
      conv_rhs => rw [List.drop_eq_getElem_cons ha, List.take_succ_cons]

/-- The index loop of `jacobiRowAcc` reads exactly the entries of
`rowSeg i`. -/
theorem rowSeg_as_reads (A : SparseCSR) (i : Nat) (hwf : CSRWF A) (hi : i < A.rows) :
    (List.range' (A.rp i) (A.rp (i + 1) - A.rp i)).map
        (fun j => (A.col_ind.getD j 0, A.values.getD j 0))
      = A.rowSeg i := by
  obtain ⟨hlen, hz, hmono, hlast, hci, hv, _⟩ := hwf
  have hib : A.rp (i + 1) ≤ A.nnz := by
    rw [← hlast]
    exact rp_mono_trans A hmono A.rows (i + 1) hi (le_refl _)
  have hzlen : (A.col_ind.zip A.values).length = A.nnz := by
    rw [List.length_zip, hci, hv, Nat.min_self]
  have hrpm := hmono i hi
  have hmap : ∀ j ∈ List.range' (A.rp i) (A.rp (i + 1) - A.rp i),
      (A.col_ind.getD j 0, A.values.getD j 0)
        = (A.col_ind.zip A.values).getD j (0, 0) := by
    intro j hj
    have hjr := List.mem_range'_1.mp hj
    have hjn : j < A.nnz := by omega
    rw [List.getD_eq_getElem (A.col_ind.zip A.values) (0, 0) (by omega),
      List.getElem_zip,
      List.getD_eq_getElem A.col_ind 0 (by omega),
      List.getD_eq_getElem A.values 0 (by omega)]
  rw [List.map_congr_left hmap,
    range'_map_getD (A.col_ind.zip A.values) (0, 0) (A.rp (i + 1) - A.rp i) (A.rp i)
      (by omega)]
  rfl

/-- `A[i,j]` read off the CSR storage: the sum of the stored values at
`(i, j)` (the entry itself when storage is duplicate-free). -/
def entryAt (A : SparseCSR) (i j : Nat) : ℚ :=
  (((A.rowSeg i).filter (fun e => e.1 = (j : Int))).map Prod.snd).sum

/-- The Jacobi update formula exactly as the spec states it:
`x_new[i] = (b[i] − Σ_{j≠i} A[i,j]·x_old[j]) / A[i,i]`. -/
def jacobiSpecValue (A : SparseCSR) (b x : List ℚ) (i : Nat) : ℚ :=
  (b.getD i 0 - ∑ j ∈ (Finset.range A.cols).erase i, entryAt A i j * x.getD j 0)
    / entryAt A i i

theorem jacobi_foldl_char (x : List ℚ) (i : Nat) :
    ∀ (l : List (Int × ℚ)) (s d : ℚ),
      l.foldl
        (fun sd e =>
          if e.1 = (i : Int) then (sd.1, e.2)
          else (sd.1 + e.2 * getI x e.1, sd.2)) (s, d)
      = (s + ((l.filter (fun e => !decide (e.1 = (i : Int)))).map
            (fun e => e.2 * getI x e.1)).sum,
         l.foldl (fun acc e => if e.1 = (i : Int) then e.2 else acc) d)
  | [], s, d => by simp
  | e :: t, s, d => by
      simp only [List.foldl_cons]
      by_cases he : e.1 = (i : Int)
      · have hdec : (!decide (e.1 = (i : Int))) = false := by simp [he]
        rw [if_pos he, if_pos he, jacobi_foldl_char x i t s e.2]
        simp [List.filter_cons, hdec]
      · have hdec : (!decide (e.1 = (i : Int))) = true := by simp [he]
        rw [if_neg he, if_neg he, jacobi_foldl_char x i t (s + e.2 * getI x e.1) d]
        simp [List.filter_cons, hdec, add_assoc]

/-- The off-diagonal accumulated sum equals the spec's
`Σ_{j ∈ [0,cols), j ≠ i} A[i,j]·x[j]`, summed over the matrix columns. -/
theorem offdiag_sum_eq (x : List ℚ) (i cols : Nat) :
    ∀ (l : List (Int × ℚ)), (∀ e ∈ l, 0 ≤ e.1 ∧ e.1 < (cols : Int)) →
      ((l.filter (fun e => !decide (e.1 = (i : Int)))).map
          (fun e => e.2 * getI x e.1)).sum
        = ∑ j ∈ (Finset.range cols).erase i,
            (((l.filter (fun e => e.1 = (j : Int))).map Prod.snd).sum) * x.getD j 0
  | [], _ => by simp
  | e :: t, hb => by
      have hbt : ∀ e' ∈ t, 0 ≤ e'.1 ∧ e'.1 < (cols : Int) :=
        fun e' he' => hb e' (List.mem_cons_of_mem e he')
      obtain ⟨he0, hec⟩ := hb e (List.mem_cons_self e t)
      by_cases he : e.1 = (i : Int)
      · have hL : (e :: t).filter (fun e' => !decide (e'.1 = (i : Int)))
            = t.filter (fun e' => !decide (e'.1 = (i : Int))) := by
          simp [List.filter_cons, he]
        rw [hL, offdiag_sum_eq x i cols t hbt]
        refine Finset.sum_congr rfl (fun j hj => ?_)
        have hji : j ≠ i := (Finset.mem_erase.mp hj).1
        have hne : ¬(e.1 = (j : Int)) := by
          rw [he]
          intro hc
          exact hji (by exact_mod_cast hc.symm)
        have hR : (e :: t).filter (fun e' => decide (e'.1 = (j : Int)))
            = t.filter (fun e' => decide (e'.1 = (j : Int))) := by
          simp [List.filter_cons, hne]
        rw [hR]
      · have hL : (e :: t).filter (fun e' => !decide (e'.1 = (i : Int)))
            = e :: t.filter (fun e' => !decide (e'.1 = (i : Int))) := by
          simp [List.filter_cons, he]
        rw [hL, List.map_cons, List.sum_cons, offdiag_sum_eq x i cols t hbt]
        have hsplit : ∀ j ∈ (Finset.range cols).erase i,
            (((e :: t).filter (fun e' => e'.1 = (j : Int))).map Prod.snd).sum
                * x.getD j 0
              = (if j = e.1.toNat then e.2 * x.getD j 0 else 0)
                + ((t.filter (fun e' => e'.1 = (j : Int))).map Prod.snd).sum
                    * x.getD j 0 := by
          intro j _
          by_cases hj : e.1 = (j : Int)
          · have hjt : j = e.1.toNat := by omega
            rw [if_pos hjt]
            have hf : (e :: t).filter (fun e' => decide (e'.1 = (j : Int)))
                = e :: t.filter (fun e' => decide (e'.1 = (j : Int))) := by
              simp [List.filter_cons, hj]
            rw [hf, List.map_cons, List.sum_cons, add_mul]
          · have hjt : ¬(j = e.1.toNat) := by omega
            rw [if_neg hjt]
            have hf : (e :: t).filter (fun e' => decide (e'.1 = (j : Int)))
                = t.filter (fun e' => decide (e'.1 = (j : Int))) := by
              simp [List.filter_cons, hj]
            rw [hf, zero_add]
        rw [Finset.sum_congr rfl hsplit, Finset.sum_add_distrib,
          Finset.sum_ite_eq' ((Finset.range cols).erase i) e.1.toNat
            (fun j => e.2 * x.getD j 0)]
        have hmem : e.1.toNat ∈ (Finset.range cols).erase i := by
          refine Finset.mem_erase.mpr ⟨?_, Finset.mem_range.mpr (by omega)⟩
          intro hc
          exact he (by omega)
        rw [if_pos hmem]
        have hgetI : getI x e.1 = x.getD e.1.toNat 0 := by
          unfold getI
          rw [if_pos he0]
        rw [hgetI]

/-- **C4.** Each `Jacobi_csr` iteration computes
`x_new[i] = (b[i] − Σ_{j≠i} A[i,j]·x_old[j]) / A[i,i]` for every row,
from the previous iterate only (the whole sweep is a function of the old
`x`); the new sweep then replaces `x`, and the loop returns it as soon as
the Euclidean norm of `x_new − x_old` is `< tol`, recursing on the
remaining budget otherwise (and returning `x` unchanged on a zero
budget). -/
theorem Jacobi_csr_spec (A : SparseCSR) (b x : List ℚ) (tol : ℚ)
    (hwf : CSRWF A) (hone : hasOneDiag A) :
    jacobiSweep A b x = (List.range A.rows).map (jacobiSpecValue A b x) ∧
    Jacobi_csr A b x 0 tol = x ∧
    (∀ mi : Nat,
      Jacobi_csr A b x (mi + 1) tol =
        if sqrtLt (∑ i ∈ Finset.range A.rows,
            ((jacobiSweep A b x).getD i 0 - x.getD i 0)
              * ((jacobiSweep A b x).getD i 0 - x.getD i 0)) tol
        then jacobiSweep A b x
        else Jacobi_csr A b (jacobiSweep A b x) mi tol) := by
  have hsweep : jacobiSweep A b x = (List.range A.rows).map (jacobiSpecValue A b x) := by
    unfold jacobiSweep
    apply List.map_congr_left
    intro i hi
    have hi' := List.mem_range.mp hi
    have hacc : jacobiRowAcc A x i
        = ((((A.rowSeg i).filter (fun e => !decide (e.1 = (i : Int)))).map
              (fun e => e.2 * getI x e.1)).sum,
           (A.rowSeg i).foldl (fun acc e => if e.1 = (i : Int) then e.2 else acc) 0) := by
      have h1 : jacobiRowAcc A x i
          = ((List.range' (A.rp i) (A.rp (i + 1) - A.rp i)).map
                (fun j => (A.col_ind.getD j 0, A.values.getD j 0))).foldl
              (fun sd e => if e.1 = (i : Int) then (sd.1, e.2)
                else (sd.1 + e.2 * getI x e.1, sd.2)) (0, 0) := by
        rw [List.foldl_map]
        rfl
      rw [h1, rowSeg_as_reads A i hwf hi', jacobi_foldl_char, zero_add]
    have hbounds : ∀ e ∈ A.rowSeg i, 0 ≤ e.1 ∧ e.1 < (A.cols : Int) := by
      intro e he
      have hz : e ∈ A.col_ind.zip A.values :=
        List.mem_of_mem_drop (List.mem_of_mem_take he)
      have h1 : e.1 ∈ A.col_ind := (List.of_mem_zip hz).1
      obtain ⟨k, hk, hkeq⟩ := List.mem_iff_getElem.mp h1
      obtain ⟨_, _, _, _, hci, _, hcols⟩ := hwf
      have hkn : k < A.nnz := by omega
      have := hcols k hkn
      rwa [List.getD_eq_getElem _ _ (by omega), hkeq] at this
    have hdiag : entryAt A i i = diagValue A i := by
      obtain ⟨e, he⟩ := List.length_eq_one.mp (hone i hi')
      have h2 : diagValue A i = e.2 :=
        filter_singleton_foldl (fun e : Int × ℚ => e.1 = (i : Int)) Prod.snd
          (A.rowSeg i) e 0 he
      rw [entryAt, he, h2]
      simp
    show (b.getD i 0 - (jacobiRowAcc A x i).1) / (jacobiRowAcc A x i).2
        = jacobiSpecValue A b x i
    rw [hacc]
    show (b.getD i 0 - _) / ((A.rowSeg i).foldl _ 0) = _
    rw [offdiag_sum_eq x i A.cols (A.rowSeg i) hbounds]
    unfold jacobiSpecValue
    rw [hdiag]
    rfl
  have hnorm : ∀ (xn : List ℚ) (n : Nat),
      normSqDiff xn x n
        = ∑ i ∈ Finset.range n,
            (xn.getD i 0 - x.getD i 0) * (xn.getD i 0 - x.getD i 0) :=
    fun xn n => foldl_add_range _ n
  refine ⟨hsweep, rfl, fun mi => ?_⟩
  show Jacobi_loop A b x (mi + 1) tol = _
  simp only [Jacobi_loop]
  rw [hnorm (jacobiSweep A b x) A.rows]
  rfl

/-- Witness for C4 at the 3×3 fixture: the first sweep from the zero
vector agrees with the spec's row formula. -/
theorem Jacobi_csr_spec_witness :
    jacobiSweep A33 b33 [0, 0, 0]
      = (List.range A33.rows).map (jacobiSpecValue A33 b33 [0, 0, 0]) :=
  (Jacobi_csr_spec A33 b33 [0, 0, 0] tol0 (by decide)
    (by with_unfolding_all decide)).1

/-! ## Assembler row shapes (claims C3, C6, C7, C9) -/

theorem rowSeg_buildCSR_map (rows cols : Nat) (f : Nat → List (Int × ℚ)) (i : Nat)
    (hi : i < rows) :
    (buildCSR rows cols ((List.range rows).map f)).rowSeg i = f i := by
  rw [buildCSR_rowSeg _ _ _ i (by simpa using hi), getD_map_range _ _ _ _ hi]

/-- **C6 (amended).** In the Dirichlet assembly, every active point with
region code `≥ 2` produces an identity row (single diagonal `1`) whose
RHS entry is the boundary-value callback's result, and every interior
point's RHS entry is the source term scaled by `hx·hx` (the code uses
`h*h` with `h = hx`, assuming `hx = hy`). -/
theorem assemble_Dirichlet_spec (g : Grid2D) (f : FFunc) (bv : BoundaryFunc)
    (i : Nat) (hi : i < g.n_active) :
    (2 ≤ g.region (g.id_i ((i : Nat) : Int)) (g.id_j ((i : Nat) : Int)) →
      (assemble_Matrix_Dirichlet g).rowSeg i = [(((i : Nat) : Int), 1)] ∧
      (assemble_RHS_Dirichlet g f bv).getD i 0
        = bv (getI g.x (g.id_i ((i : Nat) : Int))) (getI g.y (g.id_j ((i : Nat) : Int)))
            (g.region (g.id_i ((i : Nat) : Int)) (g.id_j ((i : Nat) : Int)))) ∧
    (g.region (g.id_i ((i : Nat) : Int)) (g.id_j ((i : Nat) : Int)) = 1 →
      (assemble_RHS_Dirichlet g f bv).getD i 0
        = f (getI g.x (g.id_i ((i : Nat) : Int))) (getI g.y (g.id_j ((i : Nat) : Int)))
            * g.hx * g.hx) := by
  constructor
  · intro hb
    have hne : ¬(g.region (g.id_i ((i : Nat) : Int)) (g.id_j ((i : Nat) : Int)) = 1) := by
      omega
    constructor
    · show (buildCSR _ _ _).rowSeg i = _
      rw [rowSeg_buildCSR_map _ _ _ i hi]
      unfold dirichletRow
      rw [if_neg hne]
    · unfold assemble_RHS_Dirichlet
      rw [getD_map_range _ _ _ _ hi]
      simp only [if_neg hne]
  · intro hint
    unfold assemble_RHS_Dirichlet
    rw [getD_map_range _ _ _ _ hi]
    simp only [if_pos hint]

/-- Counterexample to C6 as stated: on a grid with `hx = 1 ≠ 2 = hy`
and constant source `f ≡ 1`, the interior RHS entry is
`f·hx·hx = 1`, not the cell area `f·hx·hy = 2`. -/
theorem assemble_RHS_Dirichlet_area_counterexample :
    gDemo2.hx = 1 ∧ gDemo2.hy = 2 ∧
    gDemo2.region (gDemo2.id_i 4) (gDemo2.id_j 4) = 1 ∧
    (assemble_RHS_Dirichlet gDemo2 (fun _ _ => 1) (fun _ _ _ => 0)).getD 4 0 = 1 ∧
    (assemble_RHS_Dirichlet gDemo2 (fun _ _ => 1) (fun _ _ _ => 0)).getD 4 0
      ≠ 1 * gDemo2.hx * gDemo2.hy := by
  refine ⟨?_, ?_, ?_, ?_, ?_⟩ <;> with_unfolding_all decide

/-- Witness for C6 (amended) at `gDemo`: boundary row 0 is the identity
row with the callback RHS, and the interior RHS entry at row 4 carries
`f·hx·hx`. -/
theorem assemble_Dirichlet_spec_witness :
    ((assemble_Matrix_Dirichlet gDemo).rowSeg 0 = [((0 : Int), 1)] ∧
      (assemble_RHS_Dirichlet gDemo (fun _ _ => 3) (fun x y _ => x + y)).getD 0 0
        = getI gDemo.x (gDemo.id_i 0) + getI gDemo.y (gDemo.id_j 0)) ∧
    (assemble_RHS_Dirichlet gDemo (fun _ _ => 3) (fun x y _ => x + y)).getD 4 0
      = 3 * gDemo.hx * gDemo.hx := by
  constructor
  · have h := (assemble_Dirichlet_spec gDemo (fun _ _ => 3) (fun x y _ => x + y) 0
      (by with_unfolding_all decide)).1 (by with_unfolding_all decide)
    exact h
  · exact (assemble_Dirichlet_spec gDemo (fun _ _ => 3) (fun x y _ => x + y) 4
      (by with_unfolding_all decide)).2 (by with_unfolding_all decide)

/-- **C7.** The four ADI operators: with `μx = τ/hx²`, `μy = τ/hy²`,
interior rows carry `(1∓μ, ±μ/2, ±μ/2)` patterns in the claimed
directions, boundary rows of the explicit operators are zeroed and of
the implicit operators are identity. -/
theorem assemble_Matrix_Parabolic_ADI_spec (g : Grid2D) (tau : ℚ) (i : Nat)
    (hi : i < g.n_active) :
    (g.region (g.id_i ((i : Nat) : Int)) (g.id_j ((i : Nat) : Int)) = 1 →
      ((assemble_Matrix_Parabolic_ADI g tau).1.rowSeg i
          = [(((i : Nat) : Int), 1 - tau / g.hy / g.hy),
             (g.id_map (g.id_i ((i : Nat) : Int)) (g.id_j ((i : Nat) : Int) - 1),
               tau / g.hy / g.hy / 2),
             (g.id_map (g.id_i ((i : Nat) : Int)) (g.id_j ((i : Nat) : Int) + 1),
               tau / g.hy / g.hy / 2)] ∧
       (assemble_Matrix_Parabolic_ADI g tau).2.1.rowSeg i
          = [(((i : Nat) : Int), 1 + tau / g.hx / g.hx),
             (g.id_map (g.id_i ((i : Nat) : Int) - 1) (g.id_j ((i : Nat) : Int)),
               -(tau / g.hx / g.hx) / 2),
             (g.id_map (g.id_i ((i : Nat) : Int) + 1) (g.id_j ((i : Nat) : Int)),
               -(tau / g.hx / g.hx) / 2)] ∧
       (assemble_Matrix_Parabolic_ADI g tau).2.2.1.rowSeg i
          = [(((i : Nat) : Int), 1 - tau / g.hx / g.hx),
             (g.id_map (g.id_i ((i : Nat) : Int) - 1) (g.id_j ((i : Nat) : Int)),
               tau / g.hx / g.hx / 2),
             (g.id_map (g.id_i ((i : Nat) : Int) + 1) (g.id_j ((i : Nat) : Int)),
               tau / g.hx / g.hx / 2)] ∧
       (assemble_Matrix_Parabolic_ADI g tau).2.2.2.rowSeg i
          = [(((i : Nat) : Int), 1 + tau / g.hy / g.hy),
             (g.id_map (g.id_i ((i : Nat) : Int)) (g.id_j ((i : Nat) : Int) - 1),
               -(tau / g.hy / g.hy) / 2),
             (g.id_map (g.id_i ((i : Nat) : Int)) (g.id_j ((i : Nat) : Int) + 1),
               -(tau / g.hy / g.hy) / 2)])) ∧
    (¬(g.region (g.id_i ((i : Nat) : Int)) (g.id_j ((i : Nat) : Int)) = 1) →
      (assemble_Matrix_Parabolic_ADI g tau).1.rowSeg i = [(((i : Nat) : Int), 0)] ∧
      (assemble_Matrix_Parabolic_ADI g tau).2.1.rowSeg i = [(((i : Nat) : Int), 1)] ∧
      (assemble_Matrix_Parabolic_ADI g tau).2.2.1.rowSeg i = [(((i : Nat) : Int), 0)] ∧
      (assemble_Matrix_Parabolic_ADI g tau).2.2.2.rowSeg i = [(((i : Nat) : Int), 1)]) := by
  have h1 : (assemble_Matrix_Parabolic_ADI g tau).1.rowSeg i
      = adiRow g (1 - tau / g.hy / g.hy) (tau / g.hy / g.hy / 2) 0 false i :=
    rowSeg_buildCSR_map _ _ _ i hi
  have h2 : (assemble_Matrix_Parabolic_ADI g tau).2.1.rowSeg i
      = adiRow g (1 + tau / g.hx / g.hx) (-(tau / g.hx / g.hx) / 2) 1 true i :=
    rowSeg_buildCSR_map _ _ _ i hi
  have h3 : (assemble_Matrix_Parabolic_ADI g tau).2.2.1.rowSeg i
      = adiRow g (1 - tau / g.hx / g.hx) (tau / g.hx / g.hx / 2) 0 true i :=
    rowSeg_buildCSR_map _ _ _ i hi
  have h4 : (assemble_Matrix_Parabolic_ADI g tau).2.2.2.rowSeg i
      = adiRow g (1 + tau / g.hy / g.hy) (-(tau / g.hy / g.hy) / 2) 1 false i :=
    rowSeg_buildCSR_map _ _ _ i hi
  constructor
  · intro hint
    refine ⟨?_, ?_, ?_, ?_⟩
    · rw [h1]; unfold adiRow; rw [if_pos hint]; rfl
    · rw [h2]; unfold adiRow; rw [if_pos hint]; rfl
    · rw [h3]; unfold adiRow; rw [if_pos hint]; rfl
    · rw [h4]; unfold adiRow; rw [if_pos hint]; rfl
  · intro hb
    refine ⟨?_, ?_, ?_, ?_⟩
    · rw [h1]; unfold adiRow; rw [if_neg hb]
    · rw [h2]; unfold adiRow; rw [if_neg hb]
    · rw [h3]; unfold adiRow; rw [if_neg hb]
    · rw [h4]; unfold adiRow; rw [if_neg hb]


/-- Witness for C7 at `gDemo` with `τ = 1`: the interior row 4 of the
first (explicit-in-y) operator and the boundary row 0 of the second
(implicit-in-x) operator. -/
theorem assemble_Matrix_Parabolic_ADI_spec_witness :
    (assemble_Matrix_Parabolic_ADI gDemo 1).1.rowSeg 4
      = [((4 : Int), 1 - 1 / gDemo.hy / gDemo.hy),
         (gDemo.id_map (gDemo.id_i 4) (gDemo.id_j 4 - 1), 1 / gDemo.hy / gDemo.hy / 2),
         (gDemo.id_map (gDemo.id_i 4) (gDemo.id_j 4 + 1), 1 / gDemo.hy / gDemo.hy / 2)] ∧
    (assemble_Matrix_Parabolic_ADI gDemo 1).2.1.rowSeg 0 = [((0 : Int), 1)] :=
  ⟨((assemble_Matrix_Parabolic_ADI_spec gDemo 1 4 (by with_unfolding_all decide)).1
      (by with_unfolding_all decide)).1,
   ((assemble_Matrix_Parabolic_ADI_spec gDemo 1 0 (by with_unfolding_all decide)).2
      (by with_unfolding_all decide)).2.1⟩

/-- The region test the Neumann assembler applies to active index `i`. -/
abbrev isInteriorIdx (g : Grid2D) (i : Nat) : Prop :=
  g.region (g.id_i ((i : Nat) : Int)) (g.id_j ((i : Nat) : Int)) = 1

theorem neumannRowsGo_length (g : Grid2D) (getn : NormalFunc) (sinF cosF : ℚ → ℚ) :
    ∀ (l : List Nat) (flag : Bool),
      (neumannRowsGo g getn sinF cosF l flag).length = l.length
  | [], _ => rfl
  | i :: rest, flag => by
      unfold neumannRowsGo
      by_cases h : g.region (g.id_i ((i : Nat) : Int)) (g.id_j ((i : Nat) : Int)) = 1
      · rw [if_pos h]
        by_cases hf : flag = true
        · rw [if_pos hf]
          simp [neumannRowsGo_length g getn sinF cosF rest]
        · rw [if_neg hf]
          simp [neumannRowsGo_length g getn sinF cosF rest]
      · rw [if_neg h]
        simp [neumannRowsGo_length g getn sinF cosF rest]

theorem neumannRowsGo_boundary (g : Grid2D) (getn : NormalFunc) (sinF cosF : ℚ → ℚ) :
    ∀ (l : List Nat) (flag : Bool) (k : Nat), k < l.length →
      ¬ isInteriorIdx g (l.getD k 0) →
      (neumannRowsGo g getn sinF cosF l flag).getD k []
        = neumannBoundaryRow g getn sinF cosF (l.getD k 0)
            (g.id_i ((l.getD k 0 : Nat) : Int)) (g.id_j ((l.getD k 0 : Nat) : Int))
  | [], _, k, hk, _ => absurd hk (by simp)
  | i :: rest, flag, 0, _, hb => by
      unfold neumannRowsGo
      rw [if_neg (by simpa using hb)]
      rfl
  | i :: rest, flag, k + 1, hk, hb => by
      unfold neumannRowsGo
      by_cases h : g.region (g.id_i ((i : Nat) : Int)) (g.id_j ((i : Nat) : Int)) = 1
      · rw [if_pos h]
        by_cases hf : flag = true
        · rw [if_pos hf, List.getD_cons_succ]
          exact neumannRowsGo_boundary g getn sinF cosF rest false k
            (by simpa using hk) (by simpa using hb)
        · rw [if_neg hf, List.getD_cons_succ]
          exact neumannRowsGo_boundary g getn sinF cosF rest false k
            (by simpa using hk) (by simpa using hb)
      · rw [if_neg h, List.getD_cons_succ]
        exact neumannRowsGo_boundary g getn sinF cosF rest flag k
          (by simpa using hk) (by simpa using hb)

theorem neumannRowsGo_stencil (g : Grid2D) (getn : NormalFunc) (sinF cosF : ℚ → ℚ) :
    ∀ (l : List Nat) (flag : Bool) (k : Nat), k < l.length →
      isInteriorIdx g (l.getD k 0) →
      (flag = false ∨ ∃ m, m < k ∧ isInteriorIdx g (l.getD m 0)) →
      (neumannRowsGo g getn sinF cosF l flag).getD k []
        = stencilRow5 g (l.getD k 0)
            (g.id_i ((l.getD k 0 : Nat) : Int)) (g.id_j ((l.getD k 0 : Nat) : Int))
  | [], _, k, hk, _, _ => absurd hk (by simp)
  | i :: rest, flag, 0, _, hint, hcond => by
      have hflag : flag = false := by
        rcases hcond with h | ⟨m, hm, _⟩
        · exact h
        · omega
      subst hflag
      unfold neumannRowsGo
      rw [if_pos (by simpa using hint)]
      rfl
  | i :: rest, flag, k + 1, hk, hint, hcond => by
      unfold neumannRowsGo
      by_cases h : g.region (g.id_i ((i : Nat) : Int)) (g.id_j ((i : Nat) : Int)) = 1
      · rw [if_pos h]
        have htail : (neumannRowsGo g getn sinF cosF rest false).getD k []
            = stencilRow5 g (rest.getD k 0)
                (g.id_i ((rest.getD k 0 : Nat) : Int))
                (g.id_j ((rest.getD k 0 : Nat) : Int)) :=
          neumannRowsGo_stencil g getn sinF cosF rest false k
            (by simpa using hk) (by simpa using hint) (Or.inl rfl)
        by_cases hf : flag = true
        · rw [if_pos hf, List.getD_cons_succ, htail]
          rfl
        · rw [if_neg hf, List.getD_cons_succ, htail]
          rfl
      · rw [if_neg h, List.getD_cons_succ]
        have hcond' : flag = false ∨ ∃ m, m < k ∧ isInteriorIdx g (rest.getD m 0) := by
          rcases hcond with hc | ⟨m, hm, hmint⟩
          · exact Or.inl hc
          · rcases m with _ | m'
            · exact absurd (by simpa using hmint) h
            · exact Or.inr ⟨m', by omega, by simpa using hmint⟩
        exact neumannRowsGo_stencil g getn sinF cosF rest flag k
          (by simpa using hk) (by simpa using hint) hcond'

theorem neumannRowsGo_first (g : Grid2D) (getn : NormalFunc) (sinF cosF : ℚ → ℚ) :
    ∀ (l : List Nat) (k : Nat), k < l.length →
      isInteriorIdx g (l.getD k 0) →
      (∀ m, m < k → ¬ isInteriorIdx g (l.getD m 0)) →
      (neumannRowsGo g getn sinF cosF l true).getD k []
        = [(((l.getD k 0 : Nat) : Int), 1)]
  | [], k, hk, _, _ => absurd hk (by simp)
  | i :: rest, 0, _, hint, _ => by
      unfold neumannRowsGo
      rw [if_pos (by simpa using hint), if_pos rfl]
      rfl
  | i :: rest, k + 1, hk, hint, hfirst => by
      have hnoti : ¬ isInteriorIdx g i := by
        have := hfirst 0 (by omega)
        simpa using this
      unfold neumannRowsGo
      rw [if_neg (by simpa using hnoti), List.getD_cons_succ]
      exact neumannRowsGo_first g getn sinF cosF rest k (by simpa using hk)
        (by simpa using hint)
        (fun m hm => by
          have := hfirst (m + 1) (by omega)
          simpa using this)

theorem neumannRHSGo_length (g : Grid2D) (f : FFunc) (bv : BoundaryFunc) (gex : FFunc) :
    ∀ (l : List Nat) (flag : Bool),
      (neumannRHSGo g f bv gex l flag).length = l.length
  | [], _ => rfl
  | i :: rest, flag => by
      unfold neumannRHSGo
      by_cases h : g.region (g.id_i ((i : Nat) : Int)) (g.id_j ((i : Nat) : Int)) = 1
      · rw [if_pos h]
        by_cases hf : flag = true
        · rw [if_pos hf]
          simp [neumannRHSGo_length g f bv gex rest]
        · rw [if_neg hf]
          simp [neumannRHSGo_length g f bv gex rest]
      · rw [if_neg h]
        simp [neumannRHSGo_length g f bv gex rest]

theorem neumannRHSGo_stencil (g : Grid2D) (f : FFunc) (bv : BoundaryFunc) (gex : FFunc) :
    ∀ (l : List Nat) (flag : Bool) (k : Nat), k < l.length →
      isInteriorIdx g (l.getD k 0) →
      (flag = false ∨ ∃ m, m < k ∧ isInteriorIdx g (l.getD m 0)) →
      (neumannRHSGo g f bv gex l flag).getD k 0
        = f (getI g.x (g.id_i ((l.getD k 0 : Nat) : Int)))
            (getI g.y (g.id_j ((l.getD k 0 : Nat) : Int))) * g.hx * g.hx
  | [], _, k, hk, _, _ => absurd hk (by simp)
  | i :: rest, flag, 0, _, hint, hcond => by
      have hflag : flag = false := by
        rcases hcond with h | ⟨m, hm, _⟩
        · exact h
        · omega
      subst hflag
      unfold neumannRHSGo
      rw [if_pos (by simpa using hint)]
      rfl
  | i :: rest, flag, k + 1, hk, hint, hcond => by
      unfold neumannRHSGo
      by_cases h : g.region (g.id_i ((i : Nat) : Int)) (g.id_j ((i : Nat) : Int)) = 1
      · rw [if_pos h]
        have htail := neumannRHSGo_stencil g f bv gex rest false k
          (by simpa using hk) (by simpa using hint) (Or.inl rfl)
        by_cases hf : flag = true
        · rw [if_pos hf, List.getD_cons_succ, htail]
          rfl
        · rw [if_neg hf, List.getD_cons_succ, htail]
          rfl
      · rw [if_neg h, List.getD_cons_succ]
        have hcond' : flag = false ∨ ∃ m, m < k ∧ isInteriorIdx g (rest.getD m 0) := by
          rcases hcond with hc | ⟨m, hm, hmint⟩
          · exact Or.inl hc
          · rcases m with _ | m'
            · exact absurd (by simpa using hmint) h
            · exact Or.inr ⟨m', by omega, by simpa using hmint⟩
        exact neumannRHSGo_stencil g f bv gex rest flag k
          (by simpa using hk) (by simpa using hint) hcond'

theorem neumannRHSGo_first (g : Grid2D) (f : FFunc) (bv : BoundaryFunc) (gex : FFunc) :
    ∀ (l : List Nat) (k : Nat), k < l.length →
      isInteriorIdx g (l.getD k 0) →
      (∀ m, m < k → ¬ isInteriorIdx g (l.getD m 0)) →
      (neumannRHSGo g f bv gex l true).getD k 0
        = gex (getI g.x (g.id_i ((l.getD k 0 : Nat) : Int)))
            (getI g.y (g.id_j ((l.getD k 0 : Nat) : Int)))
  | [], k, hk, _, _ => absurd hk (by simp)
  | i :: rest, 0, _, hint, _ => by
      unfold neumannRHSGo
      rw [if_pos (by simpa using hint), if_pos rfl]
      rfl
  | i :: rest, k + 1, hk, hint, hfirst => by
      have hnoti : ¬ isInteriorIdx g i := by
        have := hfirst 0 (by omega)
        simpa using this
      unfold neumannRHSGo
      rw [if_neg (by simpa using hnoti), List.getD_cons_succ]
      exact neumannRHSGo_first g f bv gex rest k (by simpa using hk)
        (by simpa using hint)
        (fun m hm => by
          have := hfirst (m + 1) (by omega)
          simpa using this)

theorem getD_range (n m : Nat) (h : m < n) : (List.range n).getD m 0 = m := by
  rw [List.getD_eq_getElem _ _ (by simpa using h)]
  simp

/-- **C9.** In the Neumann assembly, the first interior point in
active-index order is special-cased: its matrix row is the single
diagonal entry `1` and its RHS entry is `get_exact(x,y)`; every later
interior point receives the 5-point stencil row and the source-term RHS
`f(x,y)·h·h`. -/
theorem assemble_Neumann_first_interior_spec (g : Grid2D) (getn : NormalFunc)
    (sinF cosF : ℚ → ℚ) (f : FFunc) (bv : BoundaryFunc) (gex : FFunc)
    (i : Nat) (hi : i < g.n_active)
    (hint : g.region (g.id_i ((i : Nat) : Int)) (g.id_j ((i : Nat) : Int)) = 1) :
    ((∀ m, m < i →
        ¬(g.region (g.id_i ((m : Nat) : Int)) (g.id_j ((m : Nat) : Int)) = 1)) →
      (assemble_Matrix_Neumann g getn sinF cosF).rowSeg i = [(((i : Nat) : Int), 1)] ∧
      (assemble_RHS_Neumann g f bv gex).getD i 0
        = gex (getI g.x (g.id_i ((i : Nat) : Int)))
            (getI g.y (g.id_j ((i : Nat) : Int)))) ∧
    ((∃ m, m < i ∧
        g.region (g.id_i ((m : Nat) : Int)) (g.id_j ((m : Nat) : Int)) = 1) →
      (assemble_Matrix_Neumann g getn sinF cosF).rowSeg i
        = [(((i : Nat) : Int), 4),
           (g.id_map (g.id_i ((i : Nat) : Int) - 1) (g.id_j ((i : Nat) : Int)), -1),
           (g.id_map (g.id_i ((i : Nat) : Int) + 1) (g.id_j ((i : Nat) : Int)), -1),
           (g.id_map (g.id_i ((i : Nat) : Int)) (g.id_j ((i : Nat) : Int) - 1), -1),
           (g.id_map (g.id_i ((i : Nat) : Int)) (g.id_j ((i : Nat) : Int) + 1), -1)] ∧
      (assemble_RHS_Neumann g f bv gex).getD i 0
        = f (getI g.x (g.id_i ((i : Nat) : Int)))
            (getI g.y (g.id_j ((i : Nat) : Int))) * g.hx * g.hx) := by
  have hlen : (neumannRowsGo g getn sinF cosF (List.range g.n_active) true).length
      = g.n_active := by
    rw [neumannRowsGo_length]
    exact List.length_range g.n_active
  have hrowSeg : (assemble_Matrix_Neumann g getn sinF cosF).rowSeg i
      = (neumannRowsGo g getn sinF cosF (List.range g.n_active) true).getD i [] := by
    show (buildCSR _ _ _).rowSeg i = _
    rw [buildCSR_rowSeg _ _ _ i (by rw [hlen]; exact hi)]
  have hri : (List.range g.n_active).getD i 0 = i := getD_range _ _ hi
  have hil : i < (List.range g.n_active).length := by simpa using hi
  constructor
  · intro hfirst
    constructor
    · rw [hrowSeg, neumannRowsGo_first g getn sinF cosF (List.range g.n_active) i hil
        (by rw [hri]; exact hint)
        (fun m hm => by
          rw [getD_range _ _ (lt_trans hm hi)]
          exact hfirst m hm), hri]
    · show (neumannRHSGo g f bv gex (List.range g.n_active) true).getD i 0 = _
      rw [neumannRHSGo_first g f bv gex (List.range g.n_active) i hil
        (by rw [hri]; exact hint)
        (fun m hm => by
          rw [getD_range _ _ (lt_trans hm hi)]
          exact hfirst m hm), hri]
  · intro hlater
    obtain ⟨m, hm, hmint⟩ := hlater
    have hcond : (true : Bool) = false ∨
        ∃ m', m' < i ∧ isInteriorIdx g ((List.range g.n_active).getD m' 0) :=
      Or.inr ⟨m, hm, by rw [getD_range _ _ (lt_trans hm hi)]; exact hmint⟩
    constructor
    · rw [hrowSeg, neumannRowsGo_stencil g getn sinF cosF (List.range g.n_active) true i
        hil (by rw [hri]; exact hint) hcond, hri]
      rfl
    · show (neumannRHSGo g f bv gex (List.range g.n_active) true).getD i 0 = _
      rw [neumannRHSGo_stencil g f bv gex (List.range g.n_active) true i hil
        (by rw [hri]; exact hint) hcond, hri]

/-- **C3 (amended).** In the Neumann matrix assembler, every interior
point that is **not** the first interior point in active-index order
produces the 5-point stencil row: center `4` plus the four neighbor
entries at the columns read from the forward index map. -/
theorem assemble_Matrix_Neumann_later_interior (g : Grid2D) (getn : NormalFunc)
    (sinF cosF : ℚ → ℚ) (i : Nat) (hi : i < g.n_active)
    (hint : g.region (g.id_i ((i : Nat) : Int)) (g.id_j ((i : Nat) : Int)) = 1)
    (m : Nat) (hm : m < i)
    (hmint : g.region (g.id_i ((m : Nat) : Int)) (g.id_j ((m : Nat) : Int)) = 1) :
    (assemble_Matrix_Neumann g getn sinF cosF).rowSeg i
      = [(((i : Nat) : Int), 4),
         (g.id_map (g.id_i ((i : Nat) : Int) - 1) (g.id_j ((i : Nat) : Int)), -1),
         (g.id_map (g.id_i ((i : Nat) : Int) + 1) (g.id_j ((i : Nat) : Int)), -1),
         (g.id_map (g.id_i ((i : Nat) : Int)) (g.id_j ((i : Nat) : Int) - 1), -1),
         (g.id_map (g.id_i ((i : Nat) : Int)) (g.id_j ((i : Nat) : Int) + 1), -1)] := by
  have hlen : (neumannRowsGo g getn sinF cosF (List.range g.n_active) true).length
      = g.n_active := by
    rw [neumannRowsGo_length]
    exact List.length_range g.n_active
  have hri : (List.range g.n_active).getD i 0 = i := getD_range _ _ hi
  have hil : i < (List.range g.n_active).length := by simpa using hi
  have hrowSeg : (assemble_Matrix_Neumann g getn sinF cosF).rowSeg i
      = (neumannRowsGo g getn sinF cosF (List.range g.n_active) true).getD i [] := by
    show (buildCSR _ _ _).rowSeg i = _
    rw [buildCSR_rowSeg _ _ _ i (by rw [hlen]; exact hi)]
  rw [hrowSeg, neumannRowsGo_stencil g getn sinF cosF (List.range g.n_active) true i
      hil (by rw [hri]; exact hint)
      (Or.inr ⟨m, hm, by rw [getD_range _ _ (lt_trans hm hi)]; exact hmint⟩), hri]
  rfl

/-- Counterexample to C3 as stated: on `gDemo` the (only, hence first)
interior point has active index 4, and its Neumann matrix row is the
single diagonal entry `1`, not the 5-point stencil. -/
theorem assemble_Matrix_Neumann_first_counterexample :
    gDemo.region (gDemo.id_i ((4 : Nat) : Int)) (gDemo.id_j ((4 : Nat) : Int)) = 1 ∧
    (assemble_Matrix_Neumann gDemo (fun _ => 0) (fun _ => 0) (fun _ => 0)).rowSeg 4
      = [(((4 : Nat) : Int), 1)] ∧
    (assemble_Matrix_Neumann gDemo (fun _ => 0) (fun _ => 0) (fun _ => 0)).rowSeg 4
      ≠ [(((4 : Nat) : Int), 4),
         (gDemo.id_map (gDemo.id_i ((4 : Nat) : Int) - 1) (gDemo.id_j ((4 : Nat) : Int)), -1),
         (gDemo.id_map (gDemo.id_i ((4 : Nat) : Int) + 1) (gDemo.id_j ((4 : Nat) : Int)), -1),
         (gDemo.id_map (gDemo.id_i ((4 : Nat) : Int)) (gDemo.id_j ((4 : Nat) : Int) - 1), -1),
         (gDemo.id_map (gDemo.id_i ((4 : Nat) : Int)) (gDemo.id_j ((4 : Nat) : Int) + 1), -1)] := by
  refine ⟨?_, ?_, ?_⟩ <;> with_unfolding_all decide

/-- Witness for C3 (amended) at `gDemo3`: active index 7 is an interior
point with an earlier interior point (index 4), and its row is the
5-point stencil. -/
theorem assemble_Matrix_Neumann_later_interior_witness :
    (assemble_Matrix_Neumann gDemo3 (fun _ => 0) (fun _ => 0) (fun _ => 0)).rowSeg 7
      = [(((7 : Nat) : Int), 4),
         (gDemo3.id_map (gDemo3.id_i ((7 : Nat) : Int) - 1) (gDemo3.id_j ((7 : Nat) : Int)), -1),
         (gDemo3.id_map (gDemo3.id_i ((7 : Nat) : Int) + 1) (gDemo3.id_j ((7 : Nat) : Int)), -1),
         (gDemo3.id_map (gDemo3.id_i ((7 : Nat) : Int)) (gDemo3.id_j ((7 : Nat) : Int) - 1), -1),
         (gDemo3.id_map (gDemo3.id_i ((7 : Nat) : Int)) (gDemo3.id_j ((7 : Nat) : Int) + 1), -1)] :=
  assemble_Matrix_Neumann_later_interior gDemo3 (fun _ => 0) (fun _ => 0) (fun _ => 0)
    7 (by with_unfolding_all decide) (by with_unfolding_all decide)
    4 (by decide) (by with_unfolding_all decide)

/-- Witness for C9 at `gDemo`: the first interior point (active index 4)
gets the pinned identity row and the exact-solution RHS entry. -/
theorem assemble_Neumann_first_interior_spec_witness :
    (assemble_Matrix_Neumann gDemo (fun _ => 0) (fun _ => 0) (fun _ => 0)).rowSeg 4
      = [(((4 : Nat) : Int), 1)] ∧
    (assemble_RHS_Neumann gDemo (fun _ _ => 1) (fun _ _ _ => 2) (fun x y => x + y)).getD 4 0
      = getI gDemo.x (gDemo.id_i ((4 : Nat) : Int))
          + getI gDemo.y (gDemo.id_j ((4 : Nat) : Int)) :=
  (assemble_Neumann_first_interior_spec gDemo (fun _ => 0) (fun _ => 0) (fun _ => 0)
      (fun _ _ => 1) (fun _ _ _ => 2) (fun x y => x + y) 4
      (by with_unfolding_all decide) (by with_unfolding_all decide)).1
    (by with_unfolding_all decide)

/-! ## Grid classification (claim C1) -/

/-- The code `region_divider` returns at visiting position `p = (i, j)`:
`rd(x[i], y[j], hx, hy)`, exactly the call in `initialize_Grid`'s
loop. -/
def cellCode (rd : RegionDivider) (xs ys : List ℚ) (hx hy : ℚ) (p : Nat × Nat) : Int :=
  rd (xs.getD p.1 0) (ys.getD p.2 0) hx hy

/-- Row-major order on grid positions: `i` outer, `j` inner. -/
def lexLt (p q : Nat × Nat) : Prop :=
  p.1 < q.1 ∨ (p.1 = q.1 ∧ p.2 < q.2)

theorem mem_rowMajor {nx ny : Nat} {p : Nat × Nat} :
    p ∈ rowMajor nx ny ↔ p.1 < nx ∧ p.2 < ny := by
  unfold rowMajor
  simp only [List.mem_flatMap, List.mem_map, List.mem_range]
  constructor
  · rintro ⟨i, hi, j, hj, rfl⟩
    exact ⟨hi, hj⟩
  · intro ⟨h1, h2⟩
    exact ⟨p.1, h1, p.2, h2, rfl⟩

theorem rowMajor_succ (nx ny : Nat) :
    rowMajor (nx + 1) ny = rowMajor nx ny ++ (List.range ny).map (fun j => (nx, j)) := by
  unfold rowMajor
  rw [List.range_succ, List.flatMap_append]
  simp

theorem rowMajor_pairwise (nx ny : Nat) : (rowMajor nx ny).Pairwise lexLt := by
  induction nx with
  | zero => simp [rowMajor]
  | succ n ih =>
      rw [rowMajor_succ]
      rw [List.pairwise_append]
      refine ⟨ih, ?_, ?_⟩
      · rw [List.pairwise_map]
        exact (List.pairwise_lt_range ny).imp (fun h => Or.inr ⟨rfl, h⟩)
      · intro a ha b hb
        obtain ⟨ha1, _⟩ := mem_rowMajor.mp ha
        obtain ⟨j, _, rfl⟩ := List.mem_map.mp hb
        exact Or.inl ha1

theorem rowMajor_nodup (nx ny : Nat) : (rowMajor nx ny).Nodup :=
  (rowMajor_pairwise nx ny).imp (fun h => by
    rintro rfl
    unfold lexLt at h
    omega)

/-- The elements visited strictly before the first occurrence of `p`. -/
def takeBefore {α : Type} [DecidableEq α] (l : List α) (p : α) : List α :=
  l.takeWhile (fun x => decide (x ≠ p))

theorem takeBefore_cons {α : Type} [DecidableEq α] (q : α) (t : List α) (p : α) :
    takeBefore (q :: t) p = if q = p then [] else q :: takeBefore t p := by
  unfold takeBefore
  by_cases h : q = p
  · rw [if_pos h, List.takeWhile_cons]
    simp [h]
  · rw [if_neg h, List.takeWhile_cons]
    simp [h]

theorem takeBefore_decomp {α : Type} [DecidableEq α] :
    ∀ (l : List α) (p : α), p ∈ l →
      ∃ rest, l = takeBefore l p ++ p :: rest
  | [], p, hp => absurd hp (by simp)
  | q :: t, p, hp => by
      by_cases h : q = p
      · subst h
        exact ⟨t, by rw [takeBefore_cons, if_pos rfl]; rfl⟩
      · have hpt : p ∈ t := by
          rcases List.mem_cons.mp hp with h' | h'
          · exact absurd h'.symm h
          · exact h'
        obtain ⟨rest, hrest⟩ := takeBefore_decomp t p hpt
        refine ⟨rest, ?_⟩
        rw [takeBefore_cons, if_neg h, List.cons_append]
        rw [← hrest]

theorem not_mem_takeBefore {α : Type} [DecidableEq α] (l : List α) (p : α) :
    p ∉ takeBefore l p := by
  intro hmem
  have := List.mem_takeWhile_imp hmem
  simp at this

theorem takeBefore_filter_comm {α : Type} [DecidableEq α] (act : α → Bool) :
    ∀ (l : List α) (p : α), act p = true →
      (takeBefore l p).filter act = takeBefore (l.filter act) p
  | [], p, _ => rfl
  | q :: t, p, hact => by
      by_cases h : q = p
      · subst h
        rw [takeBefore_cons, if_pos rfl, List.filter_cons, if_pos hact,
          takeBefore_cons, if_pos rfl]
        rfl
      · rw [takeBefore_cons, if_neg h, List.filter_cons, List.filter_cons]
        by_cases ha : act q = true
        · rw [if_pos ha, if_pos ha, takeBefore_cons, if_neg h,
            takeBefore_filter_comm act t p hact]
        · rw [if_neg ha, if_neg ha, takeBefore_filter_comm act t p hact]

theorem takeBefore_of_mem_takeBefore {α : Type} [DecidableEq α] :
    ∀ (l : List α) (p p' : α), p ∈ takeBefore l p' →
      takeBefore l p = takeBefore (takeBefore l p') p
  | [], p, p', hp => absurd hp (by simp [takeBefore])
  | q :: t, p, p', hp => by
      by_cases h' : q = p'
      · rw [takeBefore_cons, if_pos h'] at hp
        exact absurd hp (by simp)
      · rw [takeBefore_cons, if_neg h'] at hp
        by_cases h : q = p
        · subst h
          rw [takeBefore_cons, if_pos rfl, takeBefore_cons, if_neg h',
            takeBefore_cons, if_pos rfl]
        · have hpt : p ∈ takeBefore t p' := by
            rcases List.mem_cons.mp hp with hc | hc
            · exact absurd hc.symm h
            · exact hc
          rw [takeBefore_cons, if_neg h, takeBefore_cons, if_neg h',
            takeBefore_cons, if_neg h, takeBefore_of_mem_takeBefore t p p' hpt]

theorem count_takeBefore_lt {α : Type} [DecidableEq α] (act : α → Bool)
    (l : List α) (p : α) (hp : p ∈ l) (hact : act p = true) :
    ((takeBefore l p).filter act).length < (l.filter act).length := by
  obtain ⟨rest, hdec⟩ := takeBefore_decomp l p hp
  conv_rhs => rw [hdec]
  rw [List.filter_append, List.length_append, List.filter_cons, if_pos hact]
  simp

theorem mem_takeBefore_or {α : Type} [DecidableEq α] :
    ∀ (l : List α) (p p' : α), p ∈ l → p' ∈ l → p ≠ p' →
      p ∈ takeBefore l p' ∨ p' ∈ takeBefore l p
  | [], p, p', hp, _, _ => absurd hp (by simp)
  | q :: t, p, p', hp, hp', hne => by
      by_cases h : q = p
      · subst h
        left
        rw [takeBefore_cons, if_neg hne]
        exact List.mem_cons_self _ _
      · by_cases h' : q = p'
        · subst h'
          right
          rw [takeBefore_cons, if_neg (fun hc => hne hc.symm)]
          exact List.mem_cons_self _ _
        · have hpt : p ∈ t := by
            rcases List.mem_cons.mp hp with hc | hc
            · exact absurd hc.symm h
            · exact hc
          have hpt' : p' ∈ t := by
            rcases List.mem_cons.mp hp' with hc | hc
            · exact absurd hc.symm h'
            · exact hc
          rcases mem_takeBefore_or t p p' hpt hpt' hne with hc | hc
          · left
            rw [takeBefore_cons, if_neg h']
            exact List.mem_cons_of_mem q hc
          · right
            rw [takeBefore_cons, if_neg h]
            exact List.mem_cons_of_mem q hc

theorem count_lt_of_before {α : Type} [DecidableEq α] (act : α → Bool)
    (l : List α) (p p' : α) (hbefore : p ∈ takeBefore l p') (hact : act p = true) :
    ((takeBefore l p).filter act).length < ((takeBefore l p').filter act).length := by
  rw [takeBefore_of_mem_takeBefore l p p' hbefore]
  exact count_takeBefore_lt act (takeBefore l p') p hbefore hact

theorem pairwise_of_before {α : Type} [DecidableEq α] {R : α → α → Prop}
    (l : List α) (p p' : α) (hpw : l.Pairwise R) (hp : p ∈ l)
    (hbefore : p' ∈ takeBefore l p) : R p' p := by
  obtain ⟨rest, hdec⟩ := takeBefore_decomp l p hp
  rw [hdec] at hpw
  rw [List.pairwise_append] at hpw
  exact hpw.2.2 p' hbefore p (List.mem_cons_self _ _)

theorem exists_active_count {α : Type} [DecidableEq α] (act : α → Bool) :
    ∀ (l : List α), l.Nodup → ∀ k, k < (l.filter act).length →
      ∃ p ∈ l, act p = true ∧ ((takeBefore l p).filter act).length = k
  | [], _, k, hk => absurd hk (by simp)
  | q :: t, hnd, k, hk => by
      have hndt : t.Nodup := (List.nodup_cons.mp hnd).2
      have hqt : q ∉ t := (List.nodup_cons.mp hnd).1
      by_cases ha : act q = true
      · rcases k with _ | k'
        · refine ⟨q, List.mem_cons_self _ _, ha, ?_⟩
          rw [takeBefore_cons, if_pos rfl]
          rfl
        · rw [List.filter_cons, if_pos ha] at hk
          obtain ⟨p, hpt, hpact, hpc⟩ := exists_active_count act t hndt k'
            (by simpa using hk)
          have hpq : q ≠ p := fun hc => hqt (hc ▸ hpt)
          refine ⟨p, List.mem_cons_of_mem q hpt, hpact, ?_⟩
          rw [takeBefore_cons, if_neg hpq, List.filter_cons, if_pos ha]
          simp [hpc]
      · rw [List.filter_cons, if_neg ha] at hk
        obtain ⟨p, hpt, hpact, hpc⟩ := exists_active_count act t hndt k hk
        have hpq : q ≠ p := fun hc => hqt (hc ▸ hpt)
        refine ⟨p, List.mem_cons_of_mem q hpt, hpact, ?_⟩
        rw [takeBefore_cons, if_neg hpq, List.filter_cons, if_neg ha]
        exact hpc

theorem classifyCell_eval (rd : RegionDivider) (xs ys : List ℚ) (hx hy : ℚ)
    (s : ClassifyState) (p : Nat × Nat) :
    ((classifyCell rd xs ys hx hy s p).n_active
        = s.n_active + (if 0 < cellCode rd xs ys hx hy p then 1 else 0)) ∧
    ((classifyCell rd xs ys hx hy s p).n_interior
        = s.n_interior + (if cellCode rd xs ys hx hy p = 1 then 1 else 0)) ∧
    ((classifyCell rd xs ys hx hy s p).region ((p.1 : Nat) : Int) ((p.2 : Nat) : Int)
        = (if 0 < cellCode rd xs ys hx hy p then cellCode rd xs ys hx hy p else 0)) ∧
    ((classifyCell rd xs ys hx hy s p).id_map ((p.1 : Nat) : Int) ((p.2 : Nat) : Int)
        = (if 0 < cellCode rd xs ys hx hy p then ((s.n_active : Nat) : Int) else -1)) ∧
    (∀ a b : Int, ¬(a = ((p.1 : Nat) : Int) ∧ b = ((p.2 : Nat) : Int)) →
      (classifyCell rd xs ys hx hy s p).region a b = s.region a b ∧
      (classifyCell rd xs ys hx hy s p).id_map a b = s.id_map a b) := by
  unfold classifyCell cellCode
  by_cases h : 0 < rd (xs.getD p.1 0) (ys.getD p.2 0) hx hy
  · rw [if_pos h]
    refine ⟨?_, ?_, ?_, ?_, ?_⟩
    · rw [if_pos h]
    · by_cases h1 : rd (xs.getD p.1 0) (ys.getD p.2 0) hx hy = 1
      · rw [if_pos h1, if_pos h1]
      · rw [if_neg h1, if_neg h1]
        rfl
    · rw [if_pos h]
      simp [upd2]
    · rw [if_pos h]
      simp [upd2]
    · intro a b hab
      constructor
      · simp only [upd2]
        rw [if_neg hab]
      · simp only [upd2]
        rw [if_neg hab]
  · rw [if_neg h]
    have h1 : ¬(rd (xs.getD p.1 0) (ys.getD p.2 0) hx hy = 1) := by
      intro hc
      rw [hc] at h
      exact h one_pos
    refine ⟨?_, ?_, ?_, ?_, ?_⟩
    · rw [if_neg h]
      rfl
    · rw [if_neg h1]
      rfl
    · rw [if_neg h]
      simp [upd2]
    · rw [if_neg h]
      simp [upd2]
    · intro a b hab
      constructor
      · simp only [upd2]
        rw [if_neg hab]
      · simp only [upd2]
        rw [if_neg hab]

theorem pos_ne_of_ne {p q : Nat × Nat} (h : p ≠ q) :
    ¬(((p.1 : Nat) : Int) = ((q.1 : Nat) : Int) ∧ ((p.2 : Nat) : Int) = ((q.2 : Nat) : Int)) := by
  intro ⟨h1, h2⟩
  exact h (Prod.ext (by exact_mod_cast h1) (by exact_mod_cast h2))

theorem classify_foldl_spec (rd : RegionDivider) (xs ys : List ℚ) (hx hy : ℚ) :
    ∀ (ps : List (Nat × Nat)) (s : ClassifyState), ps.Nodup →
      ((ps.foldl (classifyCell rd xs ys hx hy) s).n_active
          = s.n_active
            + (ps.filter (fun p => decide (0 < cellCode rd xs ys hx hy p))).length) ∧
      ((ps.foldl (classifyCell rd xs ys hx hy) s).n_interior
          = s.n_interior
            + (ps.filter (fun p => decide (cellCode rd xs ys hx hy p = 1))).length) ∧
      (∀ a b : Int, (∀ p ∈ ps, ¬(a = ((p.1 : Nat) : Int) ∧ b = ((p.2 : Nat) : Int))) →
          (ps.foldl (classifyCell rd xs ys hx hy) s).region a b = s.region a b ∧
          (ps.foldl (classifyCell rd xs ys hx hy) s).id_map a b = s.id_map a b) ∧
      (∀ p ∈ ps,
          ((ps.foldl (classifyCell rd xs ys hx hy) s).region
              ((p.1 : Nat) : Int) ((p.2 : Nat) : Int)
            = (if 0 < cellCode rd xs ys hx hy p then cellCode rd xs ys hx hy p else 0)) ∧
          ((ps.foldl (classifyCell rd xs ys hx hy) s).id_map
              ((p.1 : Nat) : Int) ((p.2 : Nat) : Int)
            = (if 0 < cellCode rd xs ys hx hy p
               then ((s.n_active
                  + ((takeBefore ps p).filter
                      (fun q => decide (0 < cellCode rd xs ys hx hy q))).length : Nat) : Int)
               else -1)))
  | [], s, _ => ⟨by simp, by simp, fun a b _ => ⟨rfl, rfl⟩, by simp⟩
  | q :: t, s, hnd => by
      have hqt : q ∉ t := (List.nodup_cons.mp hnd).1
      have hndt : t.Nodup := (List.nodup_cons.mp hnd).2
      obtain ⟨hstepA, hstepI, hstepR, hstepM, hstepF⟩ :=
        classifyCell_eval rd xs ys hx hy s q
      obtain ⟨ihA, ihI, ihF, ihP⟩ :=
        classify_foldl_spec rd xs ys hx hy t (classifyCell rd xs ys hx hy s q) hndt
      rw [List.foldl_cons] at *
      refine ⟨?_, ?_, ?_, ?_⟩
      · rw [ihA, hstepA, List.filter_cons]
        by_cases hq : 0 < cellCode rd xs ys hx hy q
        · simp only [hq, decide_eq_true_eq, if_pos hq]
          simp [hq]
          omega
        · simp only [if_neg hq]
          simp [hq]
      · rw [ihI, hstepI, List.filter_cons]
        by_cases hq : cellCode rd xs ys hx hy q = 1
        · simp [hq]
          omega
        · simp [hq]
      · intro a b hav
        have hat : ∀ p ∈ t, ¬(a = ((p.1 : Nat) : Int) ∧ b = ((p.2 : Nat) : Int)) :=
          fun p hp => hav p (List.mem_cons_of_mem q hp)
        obtain ⟨hr, hm⟩ := ihF a b hat
        obtain ⟨hr', hm'⟩ := hstepF a b (hav q (List.mem_cons_self q t))
        exact ⟨hr.trans hr', hm.trans hm'⟩
      · intro p hp
        rcases List.mem_cons.mp hp with rfl | hpt
        · have havoid : ∀ p' ∈ t,
              ¬(((p.1 : Nat) : Int) = ((p'.1 : Nat) : Int)
                ∧ ((p.2 : Nat) : Int) = ((p'.2 : Nat) : Int)) :=
            fun p' hp' => pos_ne_of_ne (fun hc => hqt (hc ▸ hp'))
          obtain ⟨hr, hm⟩ := ihF ((p.1 : Nat) : Int) ((p.2 : Nat) : Int) havoid
          rw [takeBefore_cons, if_pos rfl]
          constructor
          · rw [hr, hstepR]
          · rw [hm, hstepM]
            simp
        · have hqp : q ≠ p := fun hc => hqt (hc ▸ hpt)
          obtain ⟨hr, hm⟩ := ihP p hpt
          refine ⟨hr, ?_⟩
          rw [hm, hstepA, takeBefore_cons, if_neg hqp, List.filter_cons]
          by_cases hpc : 0 < cellCode rd xs ys hx hy p
          · rw [if_pos hpc, if_pos hpc]
            by_cases hq : 0 < cellCode rd xs ys hx hy q
            · rw [if_pos hq, if_pos (decide_eq_true hq), List.length_cons]
              congr 1
              omega
            · rw [if_neg hq,
                if_neg (by simp only [decide_eq_true_eq]; exact hq :
                  ¬(decide (0 < cellCode rd xs ys hx hy q) = true))]
              congr 1
          · rw [if_neg hpc, if_neg hpc]

theorem reverse_foldl_frame (cs : ClassifyState) :
    ∀ (ps : List (Nat × Nat)) (t : (Int → Int) × (Int → Int)) (κ : Int),
      (∀ r ∈ ps, 0 < cs.region ((r.1 : Nat) : Int) ((r.2 : Nat) : Int) →
        cs.id_map ((r.1 : Nat) : Int) ((r.2 : Nat) : Int) ≠ κ) →
      (ps.foldl (reverseCell cs) t).1 κ = t.1 κ ∧
      (ps.foldl (reverseCell cs) t).2 κ = t.2 κ
  | [], _, _, _ => ⟨rfl, rfl⟩
  | q :: rest, t, κ, havoid => by
      rw [List.foldl_cons]
      obtain ⟨h1, h2⟩ := reverse_foldl_frame cs rest (reverseCell cs t q) κ
        (fun r hr => havoid r (List.mem_cons_of_mem q hr))
      rw [h1, h2]
      unfold reverseCell
      by_cases hq : 0 < cs.region ((q.1 : Nat) : Int) ((q.2 : Nat) : Int)
      · rw [if_pos hq]
        have hk : ¬(κ = cs.id_map ((q.1 : Nat) : Int) ((q.2 : Nat) : Int)) :=
          fun hc => havoid q (List.mem_cons_self q rest) hq hc.symm
        constructor
        · simp only [upd1]
          rw [if_neg hk]
        · simp only [upd1]
          rw [if_neg hk]
      · rw [if_neg hq]
        exact ⟨rfl, rfl⟩

theorem reverse_foldl_spec (cs : ClassifyState) :
    ∀ (ps : List (Nat × Nat)) (t : (Int → Int) × (Int → Int)),
      ps.Nodup →
      (∀ p ∈ ps, ∀ q ∈ ps,
        0 < cs.region ((p.1 : Nat) : Int) ((p.2 : Nat) : Int) →
        0 < cs.region ((q.1 : Nat) : Int) ((q.2 : Nat) : Int) →
        cs.id_map ((p.1 : Nat) : Int) ((p.2 : Nat) : Int)
          = cs.id_map ((q.1 : Nat) : Int) ((q.2 : Nat) : Int) → p = q) →
      ∀ p ∈ ps, 0 < cs.region ((p.1 : Nat) : Int) ((p.2 : Nat) : Int) →
        (ps.foldl (reverseCell cs) t).1
            (cs.id_map ((p.1 : Nat) : Int) ((p.2 : Nat) : Int)) = ((p.1 : Nat) : Int) ∧
        (ps.foldl (reverseCell cs) t).2
            (cs.id_map ((p.1 : Nat) : Int) ((p.2 : Nat) : Int)) = ((p.2 : Nat) : Int)
  | [], _, _, _, p, hp, _ => absurd hp (by simp)
  | q :: rest, t, hnd, hinj, p, hp, hact => by
      have hqrest : q ∉ rest := (List.nodup_cons.mp hnd).1
      rw [List.foldl_cons]
      rcases List.mem_cons.mp hp with rfl | hprest
      · have havoid : ∀ r ∈ rest,
            0 < cs.region ((r.1 : Nat) : Int) ((r.2 : Nat) : Int) →
            cs.id_map ((r.1 : Nat) : Int) ((r.2 : Nat) : Int)
              ≠ cs.id_map ((p.1 : Nat) : Int) ((p.2 : Nat) : Int) := by
          intro r hr hract hc
          have := hinj r (List.mem_cons_of_mem p hr) p (List.mem_cons_self p rest)
            hract hact hc
          exact hqrest (this ▸ hr)
        obtain ⟨h1, h2⟩ := reverse_foldl_frame cs rest (reverseCell cs t p)
          (cs.id_map ((p.1 : Nat) : Int) ((p.2 : Nat) : Int)) havoid
        rw [h1, h2]
        unfold reverseCell
        rw [if_pos hact]
        constructor
        · simp [upd1]
        · simp [upd1]
      · exact reverse_foldl_spec cs rest (reverseCell cs t q)
          (List.nodup_cons.mp hnd).2
          (fun a ha b hb => hinj a (List.mem_cons_of_mem q ha) b (List.mem_cons_of_mem q hb))
          p hprest hact

theorem grid_pipeline_spec (rd : RegionDivider) (xs ys : List ℚ) (hx hy : ℚ) (nx ny : Nat) :
    ((classifyAll rd xs ys hx hy nx ny).n_active
        = ((rowMajor nx ny).filter
            (fun p => decide (0 < cellCode rd xs ys hx hy p))).length) ∧
    ((classifyAll rd xs ys hx hy nx ny).n_interior
        = ((rowMajor nx ny).filter
            (fun p => decide (cellCode rd xs ys hx hy p = 1))).length) ∧
    (∀ p ∈ rowMajor nx ny,
      (classifyAll rd xs ys hx hy nx ny).region ((p.1 : Nat) : Int) ((p.2 : Nat) : Int)
        = (if 0 < cellCode rd xs ys hx hy p then cellCode rd xs ys hx hy p else 0)) ∧
    (∀ p ∈ rowMajor nx ny, ¬(0 < cellCode rd xs ys hx hy p) →
      (classifyAll rd xs ys hx hy nx ny).id_map ((p.1 : Nat) : Int) ((p.2 : Nat) : Int)
        = -1) ∧
    (∀ p ∈ rowMajor nx ny, 0 < cellCode rd xs ys hx hy p →
      ((classifyAll rd xs ys hx hy nx ny).id_map ((p.1 : Nat) : Int) ((p.2 : Nat) : Int)
          = ((((takeBefore (rowMajor nx ny) p).filter
              (fun q => decide (0 < cellCode rd xs ys hx hy q))).length : Nat) : Int)) ∧
        ((takeBefore (rowMajor nx ny) p).filter
            (fun q => decide (0 < cellCode rd xs ys hx hy q))).length
          < (classifyAll rd xs ys hx hy nx ny).n_active ∧
        ((buildReverse (classifyAll rd xs ys hx hy nx ny) nx ny).1
            ((classifyAll rd xs ys hx hy nx ny).id_map ((p.1 : Nat) : Int) ((p.2 : Nat) : Int))
          = ((p.1 : Nat) : Int)) ∧
        ((buildReverse (classifyAll rd xs ys hx hy nx ny) nx ny).2
            ((classifyAll rd xs ys hx hy nx ny).id_map ((p.1 : Nat) : Int) ((p.2 : Nat) : Int))
          = ((p.2 : Nat) : Int))) ∧
    (∀ k : Nat, k < (classifyAll rd xs ys hx hy nx ny).n_active →
      ∃ p ∈ rowMajor nx ny, 0 < cellCode rd xs ys hx hy p ∧
        (classifyAll rd xs ys hx hy nx ny).id_map ((p.1 : Nat) : Int) ((p.2 : Nat) : Int)
          = ((k : Nat) : Int) ∧
        (buildReverse (classifyAll rd xs ys hx hy nx ny) nx ny).1 ((k : Nat) : Int)
          = ((p.1 : Nat) : Int) ∧
        (buildReverse (classifyAll rd xs ys hx hy nx ny) nx ny).2 ((k : Nat) : Int)
          = ((p.2 : Nat) : Int)) ∧
    (∀ p ∈ rowMajor nx ny, ∀ q ∈ rowMajor nx ny,
      0 < cellCode rd xs ys hx hy p → 0 < cellCode rd xs ys hx hy q → lexLt p q →
      (classifyAll rd xs ys hx hy nx ny).id_map ((p.1 : Nat) : Int) ((p.2 : Nat) : Int)
        < (classifyAll rd xs ys hx hy nx ny).id_map ((q.1 : Nat) : Int) ((q.2 : Nat) : Int)) := by
  have hnd := rowMajor_nodup nx ny
  obtain ⟨hA, hI, hF, hP⟩ := classify_foldl_spec rd xs ys hx hy (rowMajor nx ny)
    ⟨fun _ _ => 0, fun _ _ => -1, 0, 0⟩ hnd
  have hcs : classifyAll rd xs ys hx hy nx ny
      = (rowMajor nx ny).foldl (classifyCell rd xs ys hx hy)
          ⟨fun _ _ => 0, fun _ _ => -1, 0, 0⟩ := rfl
  have hAn : (classifyAll rd xs ys hx hy nx ny).n_active
      = ((rowMajor nx ny).filter
          (fun p => decide (0 < cellCode rd xs ys hx hy p))).length := by
    rw [hcs, hA]
    exact Nat.zero_add _
  have hReg : ∀ p ∈ rowMajor nx ny,
      (classifyAll rd xs ys hx hy nx ny).region ((p.1 : Nat) : Int) ((p.2 : Nat) : Int)
        = (if 0 < cellCode rd xs ys hx hy p then cellCode rd xs ys hx hy p else 0) := by
    intro p hp
    rw [hcs]
    exact (hP p hp).1
  have hMapAct : ∀ p ∈ rowMajor nx ny, 0 < cellCode rd xs ys hx hy p →
      (classifyAll rd xs ys hx hy nx ny).id_map ((p.1 : Nat) : Int) ((p.2 : Nat) : Int)
        = ((((takeBefore (rowMajor nx ny) p).filter
            (fun q => decide (0 < cellCode rd xs ys hx hy q))).length : Nat) : Int) := by
    intro p hp hc
    have := (hP p hp).2
    rw [if_pos hc] at this
    rw [hcs, this]
    simp
  have hMapInact : ∀ p ∈ rowMajor nx ny, ¬(0 < cellCode rd xs ys hx hy p) →
      (classifyAll rd xs ys hx hy nx ny).id_map ((p.1 : Nat) : Int) ((p.2 : Nat) : Int)
        = -1 := by
    intro p hp hc
    have := (hP p hp).2
    rw [if_neg hc] at this
    rw [hcs, this]
  have hRegPos : ∀ p ∈ rowMajor nx ny,
      (0 < (classifyAll rd xs ys hx hy nx ny).region ((p.1 : Nat) : Int) ((p.2 : Nat) : Int)
        ↔ 0 < cellCode rd xs ys hx hy p) := by
    intro p hp
    rw [hReg p hp]
    by_cases hc : 0 < cellCode rd xs ys hx hy p
    · rw [if_pos hc]
    · rw [if_neg hc]
      exact ⟨fun h => absurd h (by omega), fun h => absurd h hc⟩
  have hCountLt : ∀ p ∈ rowMajor nx ny, 0 < cellCode rd xs ys hx hy p →
      ((takeBefore (rowMajor nx ny) p).filter
          (fun q => decide (0 < cellCode rd xs ys hx hy q))).length
        < (classifyAll rd xs ys hx hy nx ny).n_active := by
    intro p hp hc
    rw [hAn]
    exact count_takeBefore_lt _ (rowMajor nx ny) p hp (decide_eq_true hc)
  have hOrder : ∀ p ∈ rowMajor nx ny, ∀ q ∈ rowMajor nx ny,
      0 < cellCode rd xs ys hx hy p → 0 < cellCode rd xs ys hx hy q → lexLt p q →
      (classifyAll rd xs ys hx hy nx ny).id_map ((p.1 : Nat) : Int) ((p.2 : Nat) : Int)
        < (classifyAll rd xs ys hx hy nx ny).id_map ((q.1 : Nat) : Int) ((q.2 : Nat) : Int) := by
    intro p hp q hq hcp hcq hlex
    have hne : p ≠ q := by
      rintro rfl
      unfold lexLt at hlex
      omega
    have hbefore : p ∈ takeBefore (rowMajor nx ny) q := by
      rcases mem_takeBefore_or (rowMajor nx ny) p q hp hq hne with h | h
      · exact h
      · have := pairwise_of_before (rowMajor nx ny) p q (rowMajor_pairwise nx ny) hp h
        unfold lexLt at hlex this
        omega
    rw [hMapAct p hp hcp, hMapAct q hq hcq]
    exact_mod_cast count_lt_of_before _ (rowMajor nx ny) p q hbefore (decide_eq_true hcp)
  have hInj : ∀ p ∈ rowMajor nx ny, ∀ q ∈ rowMajor nx ny,
      0 < (classifyAll rd xs ys hx hy nx ny).region ((p.1 : Nat) : Int) ((p.2 : Nat) : Int) →
      0 < (classifyAll rd xs ys hx hy nx ny).region ((q.1 : Nat) : Int) ((q.2 : Nat) : Int) →
      (classifyAll rd xs ys hx hy nx ny).id_map ((p.1 : Nat) : Int) ((p.2 : Nat) : Int)
        = (classifyAll rd xs ys hx hy nx ny).id_map ((q.1 : Nat) : Int) ((q.2 : Nat) : Int) →
      p = q := by
    intro p hp q hq hrp hrq heq
    have hcp := (hRegPos p hp).mp hrp
    have hcq := (hRegPos q hq).mp hrq
    by_contra hne
    rcases mem_takeBefore_or (rowMajor nx ny) p q hp hq hne with h | h
    · have := count_lt_of_before
        (fun r => decide (0 < cellCode rd xs ys hx hy r)) (rowMajor nx ny) p q h
        (decide_eq_true hcp)
      rw [hMapAct p hp hcp, hMapAct q hq hcq] at heq
      have : ((takeBefore (rowMajor nx ny) p).filter
          (fun r => decide (0 < cellCode rd xs ys hx hy r))).length
        = ((takeBefore (rowMajor nx ny) q).filter
          (fun r => decide (0 < cellCode rd xs ys hx hy r))).length := by
        exact_mod_cast heq
      omega
    · have := count_lt_of_before
        (fun r => decide (0 < cellCode rd xs ys hx hy r)) (rowMajor nx ny) q p h
        (decide_eq_true hcq)
      rw [hMapAct p hp hcp, hMapAct q hq hcq] at heq
      have : ((takeBefore (rowMajor nx ny) p).filter
          (fun r => decide (0 < cellCode rd xs ys hx hy r))).length
        = ((takeBefore (rowMajor nx ny) q).filter
          (fun r => decide (0 < cellCode rd xs ys hx hy r))).length := by
        exact_mod_cast heq
      omega
  have hbuild : buildReverse (classifyAll rd xs ys hx hy nx ny) nx ny
      = (rowMajor nx ny).foldl (reverseCell (classifyAll rd xs ys hx hy nx ny))
          (fun _ => 0, fun _ => 0) := rfl
  have hRev : ∀ p ∈ rowMajor nx ny, 0 < cellCode rd xs ys hx hy p →
      ((buildReverse (classifyAll rd xs ys hx hy nx ny) nx ny).1
          ((classifyAll rd xs ys hx hy nx ny).id_map ((p.1 : Nat) : Int) ((p.2 : Nat) : Int))
        = ((p.1 : Nat) : Int)) ∧
      ((buildReverse (classifyAll rd xs ys hx hy nx ny) nx ny).2
          ((classifyAll rd xs ys hx hy nx ny).id_map ((p.1 : Nat) : Int) ((p.2 : Nat) : Int))
        = ((p.2 : Nat) : Int)) := by
    intro p hp hc
    rw [hbuild]
    exact reverse_foldl_spec (classifyAll rd xs ys hx hy nx ny) (rowMajor nx ny)
      (fun _ => 0, fun _ => 0) hnd hInj p hp ((hRegPos p hp).mpr hc)
  refine ⟨hAn, by rw [hcs, hI]; exact Nat.zero_add _, hReg, hMapInact, ?_, ?_, hOrder⟩
  · intro p hp hc
    exact ⟨hMapAct p hp hc, hCountLt p hp hc, (hRev p hp hc).1, (hRev p hp hc).2⟩
  · intro k hk
    obtain ⟨p, hp, hpact, hpc⟩ := exists_active_count
      (fun q => decide (0 < cellCode rd xs ys hx hy q)) (rowMajor nx ny) hnd k
      (by rw [← hAn]; exact hk)
    have hcp : 0 < cellCode rd xs ys hx hy p := of_decide_eq_true hpact
    have hmap : (classifyAll rd xs ys hx hy nx ny).id_map
        ((p.1 : Nat) : Int) ((p.2 : Nat) : Int) = ((k : Nat) : Int) := by
      rw [hMapAct p hp hcp, hpc]
    refine ⟨p, hp, hcp, hmap, ?_, ?_⟩
    · rw [← hmap]
      exact (hRev p hp hcp).1
    · rw [← hmap]
      exact (hRev p hp hcp).2

/-- **C1.** For every grid built by `initialize_Grid` with any
region-divider: `n_active` counts the grid points with a positive code;
`id_map[i][j] ≥ 0 ⇔ region[i][j] > 0` (with `region` holding the code
itself at positive-code points, `0` elsewhere); `id_map` restricted to
active points is a bijection onto `[0, n_active)` whose inverse is
`(id_i, id_j)`, with `id_map[id_i[k]][id_j[k]] = k` for every active
index `k`; and indices are assigned in row-major order, `i` outer, `j`
inner. -/
theorem initialize_Grid_spec (nx ny : Nat) (x0 x1 y0 y1 : ℚ) (rd : RegionDivider)
    (g : Grid2D) (hg : g = initialize_Grid nx ny x0 x1 y0 y1 rd) :
    (g.n_active = ((rowMajor nx ny).filter
        (fun p => decide (0 < cellCode rd g.x g.y g.hx g.hy p))).length) ∧
    (∀ i j : Nat, i < nx → j < ny →
      (g.region ((i : Nat) : Int) ((j : Nat) : Int)
          = (if 0 < cellCode rd g.x g.y g.hx g.hy (i, j)
             then cellCode rd g.x g.y g.hx g.hy (i, j) else 0)) ∧
      (0 ≤ g.id_map ((i : Nat) : Int) ((j : Nat) : Int)
          ↔ 0 < g.region ((i : Nat) : Int) ((j : Nat) : Int))) ∧
    (∀ i j : Nat, i < nx → j < ny →
      0 < g.region ((i : Nat) : Int) ((j : Nat) : Int) →
      0 ≤ g.id_map ((i : Nat) : Int) ((j : Nat) : Int) ∧
      g.id_map ((i : Nat) : Int) ((j : Nat) : Int) < (g.n_active : Int) ∧
      g.id_i (g.id_map ((i : Nat) : Int) ((j : Nat) : Int)) = ((i : Nat) : Int) ∧
      g.id_j (g.id_map ((i : Nat) : Int) ((j : Nat) : Int)) = ((j : Nat) : Int)) ∧
    (∀ k : Nat, k < g.n_active →
      g.id_map (g.id_i ((k : Nat) : Int)) (g.id_j ((k : Nat) : Int)) = ((k : Nat) : Int) ∧
      ∃ i j : Nat, i < nx ∧ j < ny ∧ 0 < g.region ((i : Nat) : Int) ((j : Nat) : Int) ∧
        g.id_i ((k : Nat) : Int) = ((i : Nat) : Int) ∧
        g.id_j ((k : Nat) : Int) = ((j : Nat) : Int)) ∧
    (∀ i j i' j' : Nat, i < nx → j < ny → i' < nx → j' < ny →
      0 < g.region ((i : Nat) : Int) ((j : Nat) : Int) →
      0 < g.region ((i' : Nat) : Int) ((j' : Nat) : Int) →
      (i < i' ∨ (i = i' ∧ j < j')) →
      g.id_map ((i : Nat) : Int) ((j : Nat) : Int)
        < g.id_map ((i' : Nat) : Int) ((j' : Nat) : Int)) := by
  subst hg
  obtain ⟨hAn, _, hReg, hMapInact, hAct, hSurj, hOrder⟩ :=
    grid_pipeline_spec rd (initialize_Grid nx ny x0 x1 y0 y1 rd).x
      (initialize_Grid nx ny x0 x1 y0 y1 rd).y
      (initialize_Grid nx ny x0 x1 y0 y1 rd).hx
      (initialize_Grid nx ny x0 x1 y0 y1 rd).hy nx ny
  have hID : (initialize_Grid nx ny x0 x1 y0 y1 rd).id_map
      = (classifyAll rd (initialize_Grid nx ny x0 x1 y0 y1 rd).x
          (initialize_Grid nx ny x0 x1 y0 y1 rd).y
          (initialize_Grid nx ny x0 x1 y0 y1 rd).hx
          (initialize_Grid nx ny x0 x1 y0 y1 rd).hy nx ny).id_map := rfl
  have hRG : (initialize_Grid nx ny x0 x1 y0 y1 rd).region
      = (classifyAll rd (initialize_Grid nx ny x0 x1 y0 y1 rd).x
          (initialize_Grid nx ny x0 x1 y0 y1 rd).y
          (initialize_Grid nx ny x0 x1 y0 y1 rd).hx
          (initialize_Grid nx ny x0 x1 y0 y1 rd).hy nx ny).region := rfl
  have hII : (initialize_Grid nx ny x0 x1 y0 y1 rd).id_i
      = (buildReverse (classifyAll rd (initialize_Grid nx ny x0 x1 y0 y1 rd).x
          (initialize_Grid nx ny x0 x1 y0 y1 rd).y
          (initialize_Grid nx ny x0 x1 y0 y1 rd).hx
          (initialize_Grid nx ny x0 x1 y0 y1 rd).hy nx ny) nx ny).1 := rfl
  have hJJ : (initialize_Grid nx ny x0 x1 y0 y1 rd).id_j
      = (buildReverse (classifyAll rd (initialize_Grid nx ny x0 x1 y0 y1 rd).x
          (initialize_Grid nx ny x0 x1 y0 y1 rd).y
          (initialize_Grid nx ny x0 x1 y0 y1 rd).hx
          (initialize_Grid nx ny x0 x1 y0 y1 rd).hy nx ny) nx ny).2 := rfl
  have hNA : (initialize_Grid nx ny x0 x1 y0 y1 rd).n_active
      = (classifyAll rd (initialize_Grid nx ny x0 x1 y0 y1 rd).x
          (initialize_Grid nx ny x0 x1 y0 y1 rd).y
          (initialize_Grid nx ny x0 x1 y0 y1 rd).hx
          (initialize_Grid nx ny x0 x1 y0 y1 rd).hy nx ny).n_active := rfl
  have hmem : ∀ i j : Nat, i < nx → j < ny → ((i, j) : Nat × Nat) ∈ rowMajor nx ny :=
    fun i j hi hj => mem_rowMajor.mpr ⟨hi, hj⟩
  have hRegPos : ∀ p ∈ rowMajor nx ny,
      (0 < (classifyAll rd (initialize_Grid nx ny x0 x1 y0 y1 rd).x
            (initialize_Grid nx ny x0 x1 y0 y1 rd).y
            (initialize_Grid nx ny x0 x1 y0 y1 rd).hx
            (initialize_Grid nx ny x0 x1 y0 y1 rd).hy nx ny).region
              ((p.1 : Nat) : Int) ((p.2 : Nat) : Int)
        ↔ 0 < cellCode rd (initialize_Grid nx ny x0 x1 y0 y1 rd).x
            (initialize_Grid nx ny x0 x1 y0 y1 rd).y
            (initialize_Grid nx ny x0 x1 y0 y1 rd).hx
            (initialize_Grid nx ny x0 x1 y0 y1 rd).hy p) := by
    intro p hp
    rw [hReg p hp]
    by_cases hc : 0 < cellCode rd (initialize_Grid nx ny x0 x1 y0 y1 rd).x
        (initialize_Grid nx ny x0 x1 y0 y1 rd).y
        (initialize_Grid nx ny x0 x1 y0 y1 rd).hx
        (initialize_Grid nx ny x0 x1 y0 y1 rd).hy p
    · rw [if_pos hc]
    · rw [if_neg hc]
      exact ⟨fun h => absurd h (by omega), fun h => absurd h hc⟩
  refine ⟨hAn, ?_, ?_, ?_, ?_⟩
  · intro i j hi hj
    constructor
    · exact hReg (i, j) (hmem i j hi hj)
    · rw [hID, hRG]
      by_cases hc : 0 < cellCode rd (initialize_Grid nx ny x0 x1 y0 y1 rd).x
          (initialize_Grid nx ny x0 x1 y0 y1 rd).y
          (initialize_Grid nx ny x0 x1 y0 y1 rd).hx
          (initialize_Grid nx ny x0 x1 y0 y1 rd).hy ((i, j) : Nat × Nat)
      · obtain ⟨hm, _, _, _⟩ := hAct (i, j) (hmem i j hi hj) hc
        rw [hm]
        constructor
        · intro _
          exact (hRegPos (i, j) (hmem i j hi hj)).mpr hc
        · intro _
          exact Int.natCast_nonneg _
      · rw [hMapInact (i, j) (hmem i j hi hj) hc]
        constructor
        · intro h
          exact absurd h (by omega)
        · intro h
          exact absurd ((hRegPos (i, j) (hmem i j hi hj)).mp h) hc
  · intro i j hi hj hr
    rw [hRG] at hr
    have hc := (hRegPos (i, j) (hmem i j hi hj)).mp hr
    obtain ⟨hm, hlt, hri, hrj⟩ := hAct (i, j) (hmem i j hi hj) hc
    rw [hID, hII, hJJ, hNA, hm]
    exact ⟨Int.natCast_nonneg _, by exact_mod_cast hlt, by rw [← hm]; exact hri,
      by rw [← hm]; exact hrj⟩
  · intro k hk
    rw [hNA] at hk
    obtain ⟨p, hp, hpc, hpm, hpi, hpj⟩ := hSurj k hk
    obtain ⟨h1, h2⟩ := mem_rowMajor.mp hp
    constructor
    · rw [hID, hII, hJJ, hpi, hpj, ← hpm]
    · refine ⟨p.1, p.2, h1, h2, ?_, ?_, ?_⟩
      · rw [hRG]
        exact (hRegPos p hp).mpr hpc
      · rw [hII]
        exact hpi
      · rw [hJJ]
        exact hpj
  · intro i j i' j' hi hj hi' hj' hr hr' hlex
    rw [hRG] at hr hr'
    rw [hID]
    exact hOrder (i, j) (hmem i j hi hj) (i', j') (hmem i' j' hi' hj')
      ((hRegPos (i, j) (hmem i j hi hj)).mp hr)
      ((hRegPos (i', j') (hmem i' j' hi' hj')).mp hr') hlex

/-- Witness for C1 at `gDemo`: the count of positive-code points and the
`id_map ∘ (id_i, id_j) = id` identity at the active index 4. -/
theorem initialize_Grid_spec_witness :
    gDemo.n_active = ((rowMajor 3 3).filter
        (fun p => decide (0 < cellCode rdDemo gDemo.x gDemo.y gDemo.hx gDemo.hy p))).length ∧
    gDemo.id_map (gDemo.id_i ((4 : Nat) : Int)) (gDemo.id_j ((4 : Nat) : Int))
      = ((4 : Nat) : Int) :=
  ⟨(initialize_Grid_spec 3 3 0 2 0 2 rdDemo gDemo rfl).1,
   ((initialize_Grid_spec 3 3 0 2 0 2 rdDemo gDemo rfl).2.2.2.1 4
      (by with_unfolding_all decide)).1⟩

end PdeCore
